import Mathlib

/-!
Verification development for the runtime-spatial-spawning repository.

The TypeScript runtime (src/runtime-code/runtimeSpawn.ts) and the C# encoder
(src/portal-migrator/Utilities.cs) are shallowly embedded below.  JavaScript
numbers are modelled as Nat / Int for integers and as exact rationals for
floating-point values; JavaScript Map objects are modelled as association
lists with insertion-order semantics; fallible code returns Except.
-/

namespace RuntimeSpawn

set_option maxRecDepth 20000

/-- Errors thrown by the embedded code.  Each constructor corresponds to one
`throw` site in the source and carries the data interpolated into the thrown
message.  `fuelExhausted` is not a thrown error: it marks divergence of a
source loop (the model runs loops on explicit fuel). -/
inductive JsError : Type where
  | oddLength : JsError
  | bufferTooSmall : JsError
  | invalidChar (index : Nat) : JsError
  | unexpectedEOF (need : Nat) (haveBytes : Nat) : JsError
  | versionMismatch (version : Nat) : JsError
  | streamDesync (cx cy cz : Int) (offset totalOffset : Nat) : JsError
  | utf8Range : JsError
  | utf8Incomplete : JsError
  | fuelExhausted : JsError
  deriving DecidableEq

instance exceptDecEq {e a : Type} [DecidableEq e] [DecidableEq a] :
    DecidableEq (Except e a)
  | .ok x, .ok y =>
    if h : x = y then .isTrue (by rw [h]) else .isFalse (by intro hh; cases hh; exact h rfl)
  | .ok _, .error _ => .isFalse (by intro hh; cases hh)
  | .error _, .ok _ => .isFalse (by intro hh; cases hh)
  | .error x, .error y =>
    if h : x = y then .isTrue (by rw [h]) else .isFalse (by intro hh; cases hh; exact h rfl)

/-! ## Custom base-16 alphabet

`CUSTOM_BASE16_TABLE = "_-,.:`~'+=^%<}] "` in both runtimeSpawn.ts and
Utilities.cs.  Characters are modelled by their UTF-16 code units. -/

def CUSTOM_BASE16_TABLE : List Nat :=
  [95, 45, 44, 46, 58, 96, 126, 39, 43, 61, 94, 37, 60, 125, 93, 32]

/-- The precomputed `CUSTOM_BASE16_MAP` lookup of runtimeSpawn.ts: a character
code below 128 maps to its index in the table, every other character maps to
-1.  (The table entries are pairwise distinct, so the first index found is the
unique one.) -/
def base16Value (c : Nat) : Int :=
  if c < 128 then
    match CUSTOM_BASE16_TABLE.findIdx? (fun t => t = c) with
    | some i => (i : Int)
    | none => -1
  else -1

/-- A character code that belongs to the 16-symbol alphabet. -/
def validBase16Char (c : Nat) : Prop := base16Value c ≠ -1

instance (c : Nat) : Decidable (validBase16Char c) := by
  unfold validBase16Char; infer_instance

/-- The pair loop of `decodeCustomBase16` (runtimeSpawn.ts lines 29-38): two
characters per byte, high nibble first; the index `i` steps by 2 and is the
index reported for an invalid character. -/
def decodePairs : List Nat → Nat → Except JsError (List Nat)
  | [], _ => .ok []
  | [_], _ => .ok []
  | hi :: lo :: rest, i =>
    let hv := base16Value hi
    let lv := base16Value lo
    if hv = -1 ∨ lv = -1 then .error (.invalidChar i)
    else
      match decodePairs rest (i + 2) with
      | .error e => .error e
      | .ok tail => .ok ((hv.toNat * 16 + lv.toNat) :: tail)

/-- `decodeCustomBase16(data, outData)` from runtimeSpawn.ts (lines 21-40).
`outCapacity` is `outData.length`, the size of the caller-owned buffer; the
result is the sequence of decoded bytes (the source writes them into
`outData` and returns their count). -/
def decodeCustomBase16 (data : List Nat) (outCapacity : Nat) : Except JsError (List Nat) :=
  if data.length % 2 ≠ 0 then .error .oddLength
  else if outCapacity < data.length / 2 then .error .bufferTooSmall
  else decodePairs data 0

/-- `Utilities.EncodeCustomBase16` from portal-migrator/Utilities.cs (lines
28-44): each byte is emitted as `TABLE[b >> 4]` then `TABLE[b & 0xF]`. -/
def encodeCustomBase16 (data : List Nat) : List Nat :=
  (data.map (fun b => [CUSTOM_BASE16_TABLE.getD (b / 16) 0,
                       CUSTOM_BASE16_TABLE.getD (b % 16) 0])).flatten

theorem base16Value_table (n : Nat) (h : n < 16) :
    base16Value (CUSTOM_BASE16_TABLE.getD n 0) = (n : Int) := by
  revert h; revert n; decide

theorem encodeCustomBase16_cons (b : Nat) (rest : List Nat) :
    encodeCustomBase16 (b :: rest) =
      CUSTOM_BASE16_TABLE.getD (b / 16) 0 :: CUSTOM_BASE16_TABLE.getD (b % 16) 0 ::
        encodeCustomBase16 rest := by
  simp [encodeCustomBase16]

theorem encodeCustomBase16_length (data : List Nat) :
    (encodeCustomBase16 data).length = 2 * data.length := by
  induction data with
  | nil => simp [encodeCustomBase16]
  | cons b rest ih => rw [encodeCustomBase16_cons]; simp only [List.length_cons, ih]; ring

theorem decodePairs_encode (data : List Nat) (hb : ∀ b ∈ data, b < 256) :
    ∀ i, decodePairs (encodeCustomBase16 data) i = .ok data := by
  induction data with
  | nil => intro i; simp [encodeCustomBase16, decodePairs]
  | cons b rest ih =>
    intro i
    have hblt : b < 256 := hb b (by simp)
    have hdiv : b / 16 < 16 := Nat.div_lt_of_lt_mul (by omega)
    have hmod : b % 16 < 16 := Nat.mod_lt _ (by omega)
    have h1 := base16Value_table (b / 16) hdiv
    have h2 := base16Value_table (b % 16) hmod
    rw [encodeCustomBase16_cons]
    unfold decodePairs
    rw [h1, h2]
    have hne1 : ((b / 16 : Nat) : Int) ≠ -1 := by omega
    have hne2 : ((b % 16 : Nat) : Int) ≠ -1 := by omega
    rw [if_neg (not_or.mpr ⟨hne1, hne2⟩)]
    rw [ih (fun x hx => hb x (by simp [hx])) (i + 2)]
    have : ((b / 16 : Nat) : Int).toNat * 16 + ((b % 16 : Nat) : Int).toNat = b := by omega
    rw [this]

/-- C2: encoding any byte array with the fixed 16-symbol alphabet (two
characters per byte, high nibble first, `Utilities.EncodeCustomBase16`) and
decoding the result with `decodeCustomBase16` yields exactly the original
bytes, for any output buffer large enough to hold them. -/
theorem claim_C2 (data : List Nat) (hb : ∀ b ∈ data, b < 256)
    (outCapacity : Nat) (hcap : data.length ≤ outCapacity) :
    decodeCustomBase16 (encodeCustomBase16 data) outCapacity = .ok data := by
  unfold decodeCustomBase16
  rw [encodeCustomBase16_length]
  rw [if_neg (by omega)]
  rw [if_neg (by push_neg; omega)]
  exact decodePairs_encode data hb 0

theorem claim_C2_witness :
    (∀ b ∈ [0, 7, 171, 255], b < 256) ∧
      decodeCustomBase16 (encodeCustomBase16 [0, 7, 171, 255]) 4 = .ok [0, 7, 171, 255] :=
  ⟨by decide, claim_C2 [0, 7, 171, 255] (by decide) 4 (by decide)⟩

/-- C4 counterexample: on the input whose character codes are `[95, 65]`
(the valid alphabet character `_` followed by the invalid character `A`), the
decoder fails reporting index 0 — the first character of the offending pair —
although the character outside the alphabet sits at index 1. -/
theorem claim_C4_counterexample :
    decodeCustomBase16 [95, 65] 5 = .error (.invalidChar 0) ∧
      validBase16Char 95 ∧ ¬ validBase16Char 65 := by
  decide

theorem decodePairs_all_valid (data : List Nat) (i : Nat)
    (hv : ∀ c ∈ data, validBase16Char c) :
    ∃ out, decodePairs data i = .ok out ∧ out.length = data.length / 2 := by
  match data with
  | [] => exact ⟨[], rfl, rfl⟩
  | [c] => exact ⟨[], rfl, by simp⟩
  | hi :: lo :: rest =>
    have h0 : validBase16Char hi := hv hi (by simp)
    have h1 : validBase16Char lo := hv lo (by simp)
    unfold validBase16Char at h0 h1
    obtain ⟨out, hout, hlen⟩ :=
      decodePairs_all_valid rest (i + 2) (fun c hc => hv c (by simp [hc]))
    refine ⟨((base16Value hi).toNat * 16 + (base16Value lo).toNat) :: out, ?_, ?_⟩
    · unfold decodePairs
      rw [if_neg (by simp [h0, h1]), hout]
    · simp only [List.length_cons, hlen]
      omega
termination_by data.length

theorem decodePairs_first_invalid (data : List Nat) (i j : Nat)
    (heven : data.length % 2 = 0) (hj : j < data.length)
    (hbad : ¬ validBase16Char (data.getD j 0))
    (hmin : ∀ k, k < j → validBase16Char (data.getD k 0)) :
    decodePairs data i = .error (.invalidChar (i + 2 * (j / 2))) := by
  match data with
  | [] => simp at hj
  | [c] => simp at heven
  | hi :: lo :: rest =>
    by_cases hfail : base16Value hi = -1 ∨ base16Value lo = -1
    · have hj2 : j < 2 := by
        by_contra h
        push_neg at h
        have h0 : validBase16Char hi := by simpa using hmin 0 (by omega)
        have h1 : validBase16Char lo := by simpa using hmin 1 (by omega)
        unfold validBase16Char at h0 h1
        rcases hfail with hx | hx
        · exact h0 hx
        · exact h1 hx
      unfold decodePairs
      rw [if_pos hfail]
      have hj0 : j / 2 = 0 := by omega
      simp [hj0]
    · have hj2 : 2 ≤ j := by
        by_contra h
        push_neg at h
        interval_cases j
        · exact hbad (by simpa using fun hx => hfail (Or.inl hx))
        · exact hbad (by simpa using fun hx => hfail (Or.inr hx))
      have hrec := decodePairs_first_invalid rest (i + 2) (j - 2)
        (by simp only [List.length_cons] at heven ⊢; omega)
        (by simp only [List.length_cons] at hj ⊢; omega)
        (by
          have hjj : j = (j - 2) + 1 + 1 := by omega
          rw [hjj] at hbad
          simpa using hbad)
        (fun k hk => by
          have := hmin (k + 1 + 1) (by omega)
          simpa using this)
      unfold decodePairs
      rw [if_neg hfail, hrec]
      have : (i + 2) + 2 * ((j - 2) / 2) = i + 2 * (j / 2) := by omega
      rw [this]
termination_by data.length

/-- C4, amended: the decoder fails on every odd-length input; for even-length
inputs whose decoded length exceeds the caller-owned buffer capacity it fails
with the capacity error; for even-length inputs that fit the buffer and
contain a character outside the 16-symbol alphabet it fails reporting the
index of the first character of the two-character group containing the first
offending character (index `2 * (j / 2)` when the first offending character
sits at index `j`); on every valid input it returns normally with exactly
`length / 2` decoded bytes. -/
theorem claim_C4 (data : List Nat) (outCapacity : Nat) :
    (data.length % 2 = 1 → decodeCustomBase16 data outCapacity = .error .oddLength) ∧
    (data.length % 2 = 0 → outCapacity < data.length / 2 →
      decodeCustomBase16 data outCapacity = .error .bufferTooSmall) ∧
    (∀ j, data.length % 2 = 0 → data.length / 2 ≤ outCapacity →
      j < data.length → ¬ validBase16Char (data.getD j 0) →
      (∀ k, k < j → validBase16Char (data.getD k 0)) →
      decodeCustomBase16 data outCapacity = .error (.invalidChar (2 * (j / 2)))) ∧
    (data.length % 2 = 0 → data.length / 2 ≤ outCapacity →
      (∀ c ∈ data, validBase16Char c) →
      ∃ out, decodeCustomBase16 data outCapacity = .ok out ∧
        out.length = data.length / 2) := by
  refine ⟨?_, ?_, ?_, ?_⟩
  · intro hodd
    unfold decodeCustomBase16
    rw [if_pos (by omega)]
  · intro heven hcap
    unfold decodeCustomBase16
    rw [if_neg (by omega), if_pos hcap]
  · intro j heven hcap hj hbad hmin
    unfold decodeCustomBase16
    rw [if_neg (by omega), if_neg (by omega)]
    simpa using decodePairs_first_invalid data 0 j heven hj hbad hmin
  · intro heven hcap hv
    unfold decodeCustomBase16
    rw [if_neg (by omega), if_neg (by omega)]
    exact decodePairs_all_valid data 0 hv

theorem claim_C4_witness :
    ([95, 65, 96].length % 2 = 1 →
        decodeCustomBase16 [95, 65, 96] 9 = .error .oddLength) ∧
      decodeCustomBase16 [95, 65, 96] 9 = .error .oddLength :=
  ⟨(claim_C4 [95, 65, 96] 9).1, (claim_C4 [95, 65, 96] 9).1 (by decide)⟩

/-! ## JavaScript Map model

A JavaScript `Map` preserves insertion order; `set` of an existing key updates
the entry in place, `set` of a new key appends it; `delete` removes the entry
and keeps the order of the rest.  Iteration (`values()`, `for..of`,
`keys()`) follows the list order. -/

def jsMapGet {K V : Type} [DecidableEq K] : List (K × V) → K → Option V
  | [], _ => none
  | e :: rest, k => if e.1 = k then some e.2 else jsMapGet rest k

def jsMapSet {K V : Type} [DecidableEq K] (m : List (K × V)) (k : K) (v : V) :
    List (K × V) :=
  if (jsMapGet m k).isSome then m.map (fun e => if e.1 = k then (k, v) else e)
  else m ++ [(k, v)]

def jsMapDelete {K V : Type} [DecidableEq K] : List (K × V) → K → List (K × V)
  | [], _ => []
  | e :: rest, k => if e.1 = k then jsMapDelete rest k else e :: jsMapDelete rest k

def jsMapKeys {K V : Type} (m : List (K × V)) : List K := m.map Prod.fst

theorem jsMapGet_nil {K V : Type} [DecidableEq K] (k : K) :
    jsMapGet ([] : List (K × V)) k = none := rfl

theorem jsMapGet_cons {K V : Type} [DecidableEq K] (e : K × V) (rest : List (K × V))
    (k : K) :
    jsMapGet (e :: rest) k = if e.1 = k then some e.2 else jsMapGet rest k := rfl

theorem jsMapGet_append {K V : Type} [DecidableEq K] (a b : List (K × V)) (k : K) :
    jsMapGet (a ++ b) k =
      match jsMapGet a k with
      | some v => some v
      | none => jsMapGet b k := by
  induction a with
  | nil => simp [jsMapGet]
  | cons e rest ih =>
    by_cases h : e.1 = k
    · simp [jsMapGet, h]
    · simp [jsMapGet, h, ih]

theorem jsMapGet_mapUpdate_ne {K V : Type} [DecidableEq K] (m : List (K × V))
    (k' k : K) (v : V) (hne : k ≠ k') :
    jsMapGet (m.map (fun e => if e.1 = k' then (k', v) else e)) k = jsMapGet m k := by
  induction m with
  | nil => simp [jsMapGet]
  | cons e rest ih =>
    simp only [List.map_cons]
    rw [jsMapGet_cons, jsMapGet_cons]
    by_cases h : e.1 = k'
    · rw [if_pos h]
      have hk1 : ¬ ((k', v) : K × V).1 = k := fun hh => hne hh.symm
      have hk2 : ¬ e.1 = k := by rw [h]; exact fun hh => hne hh.symm
      rw [if_neg hk1, if_neg hk2]
      exact ih
    · rw [if_neg h]
      by_cases h2 : e.1 = k
      · rw [if_pos h2, if_pos h2]
      · rw [if_neg h2, if_neg h2]; exact ih

theorem jsMapGet_mapUpdate_eq {K V : Type} [DecidableEq K] (m : List (K × V))
    (k : K) (v : V) (hsome : (jsMapGet m k).isSome) :
    jsMapGet (m.map (fun e => if e.1 = k then (k, v) else e)) k = some v := by
  induction m with
  | nil => simp [jsMapGet] at hsome
  | cons e rest ih =>
    simp only [List.map_cons]
    rw [jsMapGet_cons] at hsome
    rw [jsMapGet_cons]
    by_cases h : e.1 = k
    · rw [if_pos h]
      simp
    · rw [if_neg h] at hsome
      rw [if_neg h]
      rw [if_neg h]
      exact ih hsome

theorem jsMapGet_set {K V : Type} [DecidableEq K] (m : List (K × V)) (k' k : K) (v : V) :
    jsMapGet (jsMapSet m k' v) k = if k = k' then some v else jsMapGet m k := by
  unfold jsMapSet
  by_cases hpres : (jsMapGet m k').isSome
  · rw [if_pos hpres]
    by_cases hk : k = k'
    · subst hk; rw [if_pos rfl]; exact jsMapGet_mapUpdate_eq m k v hpres
    · rw [if_neg hk]; exact jsMapGet_mapUpdate_ne m k' k v hk
  · rw [if_neg hpres, jsMapGet_append]
    by_cases hk : k = k'
    · subst hk
      have hnone : jsMapGet m k = none := by
        cases h : jsMapGet m k
        · rfl
        · rw [h] at hpres; simp at hpres
      rw [hnone, if_pos rfl]
      rw [jsMapGet_cons, if_pos rfl]
    · rw [if_neg hk]
      cases h : jsMapGet m k
      · rw [jsMapGet_cons, if_neg (fun hh => hk hh.symm)]
        rfl
      · rfl

theorem jsMapGet_delete {K V : Type} [DecidableEq K] (m : List (K × V)) (k' k : K) :
    jsMapGet (jsMapDelete m k') k = if k = k' then none else jsMapGet m k := by
  induction m with
  | nil => simp [jsMapGet, jsMapDelete]
  | cons e rest ih =>
    unfold jsMapDelete
    by_cases h : e.1 = k'
    · rw [if_pos h, ih]
      by_cases hk : k = k'
      · rw [if_pos hk, if_pos hk]
      · rw [if_neg hk, if_neg hk, jsMapGet_cons]
        have : ¬ e.1 = k := by rw [h]; exact fun hh => hk hh.symm
        rw [if_neg this]
    · rw [if_neg h, jsMapGet_cons, jsMapGet_cons]
      by_cases h2 : e.1 = k
      · have hk : ¬ k = k' := by rw [← h2]; exact h
        rw [if_pos h2, if_pos h2, if_neg hk]
      · rw [if_neg h2, if_neg h2, ih]

theorem jsMapGet_isSome_iff {K V : Type} [DecidableEq K] (m : List (K × V)) (k : K) :
    (jsMapGet m k).isSome ↔ k ∈ jsMapKeys m := by
  induction m with
  | nil => simp [jsMapGet, jsMapKeys]
  | cons e rest ih =>
    rw [jsMapGet_cons]
    unfold jsMapKeys
    simp only [List.map_cons, List.mem_cons]
    by_cases h : e.1 = k
    · simp [h]
    · rw [if_neg h]
      rw [show rest.map Prod.fst = jsMapKeys rest from rfl]
      rw [ih]
      constructor
      · intro hh; exact Or.inr hh
      · intro hh
        rcases hh with hh | hh
        · exact absurd hh.symm h
        · exact hh

theorem jsMapKeys_set_mem {K V : Type} [DecidableEq K] (m : List (K × V))
    (k' : K) (v : V) (k : K) :
    k ∈ jsMapKeys (jsMapSet m k' v) ↔ k ∈ jsMapKeys m ∨ k = k' := by
  rw [← jsMapGet_isSome_iff, jsMapGet_set]
  by_cases hk : k = k'
  · simp [hk]
  · rw [if_neg hk, jsMapGet_isSome_iff]; simp [hk]

theorem jsMapKeys_mapUpdate {K V : Type} [DecidableEq K] (m : List (K × V))
    (k : K) (v : V) :
    jsMapKeys (m.map (fun e => if e.1 = k then (k, v) else e)) = jsMapKeys m := by
  induction m with
  | nil => rfl
  | cons e rest ih =>
    simp only [List.map_cons]
    unfold jsMapKeys
    simp only [List.map_cons]
    by_cases h : e.1 = k
    · rw [if_pos h]
      show k :: _ = e.1 :: _
      rw [h]
      exact congrArg _ ih
    · rw [if_neg h]
      exact congrArg _ ih

theorem jsMapKeys_set_nodup {K V : Type} [DecidableEq K] (m : List (K × V))
    (k : K) (v : V) (h : (jsMapKeys m).Nodup) : (jsMapKeys (jsMapSet m k v)).Nodup := by
  unfold jsMapSet
  by_cases hpres : (jsMapGet m k).isSome
  · rw [if_pos hpres, jsMapKeys_mapUpdate]; exact h
  · rw [if_neg hpres]
    unfold jsMapKeys
    rw [List.map_append]
    apply List.Nodup.append h (by simp)
    intro a ha hb
    simp at hb
    subst hb
    rw [← jsMapGet_isSome_iff] at ha
    exact hpres ha

/-- The value written last for a key by a sequence of `set` operations. -/
def lastWrite {K V : Type} [DecidableEq K] (s : List (K × V)) (k : K) : Option V :=
  s.foldl (fun acc w => if w.1 = k then some w.2 else acc) none

theorem lastWrite_foldl_init {K V : Type} [DecidableEq K] (s : List (K × V)) (k : K)
    (a : Option V) :
    s.foldl (fun acc w => if w.1 = k then some w.2 else acc) a =
      match lastWrite s k with
      | some v => some v
      | none => a := by
  induction s generalizing a with
  | nil => simp [lastWrite]
  | cons w rest ih =>
    unfold lastWrite
    simp only [List.foldl_cons]
    rw [ih, ih]
    cases h : lastWrite rest k
    · by_cases hw : w.1 = k
      · simp [hw]
      · simp [hw]
    · simp

theorem lastWrite_cons {K V : Type} [DecidableEq K] (w : K × V) (s : List (K × V)) (k : K) :
    lastWrite (w :: s) k =
      match lastWrite s k with
      | some v => some v
      | none => if w.1 = k then some w.2 else none := by
  unfold lastWrite
  simp only [List.foldl_cons]
  exact lastWrite_foldl_init s k _

theorem lastWrite_isSome_iff {K V : Type} [DecidableEq K] (s : List (K × V)) (k : K) :
    (lastWrite s k).isSome ↔ k ∈ s.map Prod.fst := by
  induction s with
  | nil => simp [lastWrite]
  | cons w rest ih =>
    rw [lastWrite_cons]
    cases h : lastWrite rest k with
    | none =>
      have hnotin : k ∉ rest.map Prod.fst := by rw [← ih, h]; simp
      simp only [List.map_cons, List.mem_cons]
      by_cases hw : w.1 = k
      · simp [hw]
      · have hw2 : ¬ k = w.1 := fun hh => hw hh.symm
        simp [hw, hw2, hnotin]
    | some v =>
      have hin : k ∈ rest.map Prod.fst := by rw [← ih, h]; simp
      simp [hin]

theorem lastWrite_mem {K V : Type} [DecidableEq K] (s : List (K × V)) (k : K) (v : V)
    (h : lastWrite s k = some v) : (k, v) ∈ s := by
  induction s with
  | nil => simp [lastWrite] at h
  | cons w rest ih =>
    rw [lastWrite_cons] at h
    cases h2 : lastWrite rest k with
    | none =>
      rw [h2] at h
      simp only at h
      by_cases hw : w.1 = k
      · rw [if_pos hw] at h
        cases h
        cases w with
        | mk a b =>
          simp only at hw
          subst hw
          exact List.mem_cons_self _ _
      · rw [if_neg hw] at h; cases h
    | some v2 =>
      rw [h2] at h
      simp only at h
      cases h
      right
      exact ih h2

/-- Applying a sequence of writes in order, i.e. the effect of a loop that
performs `map.set(k, v)` for each pair. -/
def applyWrites {K V : Type} [DecidableEq K] (s : List (K × V)) (m : List (K × V)) :
    List (K × V) :=
  s.foldl (fun acc w => jsMapSet acc w.1 w.2) m

theorem jsMapGet_applyWrites {K V : Type} [DecidableEq K] (s m : List (K × V)) (k : K) :
    jsMapGet (applyWrites s m) k =
      match lastWrite s k with
      | some v => some v
      | none => jsMapGet m k := by
  induction s generalizing m with
  | nil => simp [applyWrites, lastWrite]
  | cons w rest ih =>
    unfold applyWrites
    simp only [List.foldl_cons]
    rw [show List.foldl (fun acc w => jsMapSet acc w.1 w.2) (jsMapSet m w.1 w.2) rest =
      applyWrites rest (jsMapSet m w.1 w.2) from rfl]
    rw [ih, lastWrite_cons]
    cases h : lastWrite rest k with
    | none =>
      simp only
      rw [jsMapGet_set]
      by_cases hw : w.1 = k
      · rw [if_pos hw, if_pos hw.symm]
      · rw [if_neg (fun hh => hw hh.symm), if_neg hw]
    | some v => simp

theorem applyWrites_get_idem {K V : Type} [DecidableEq K] (s m : List (K × V)) (k : K) :
    jsMapGet (applyWrites s (applyWrites s m)) k = jsMapGet (applyWrites s m) k := by
  rw [jsMapGet_applyWrites, jsMapGet_applyWrites]
  cases h : lastWrite s k <;> simp

theorem applyWrites_keys_mem {K V : Type} [DecidableEq K] (s m : List (K × V)) (k : K) :
    k ∈ jsMapKeys (applyWrites s m) ↔ k ∈ jsMapKeys m ∨ k ∈ s.map Prod.fst := by
  rw [← jsMapGet_isSome_iff, jsMapGet_applyWrites]
  cases h : lastWrite s k with
  | none =>
    have hnotin : k ∉ s.map Prod.fst := by rw [← lastWrite_isSome_iff, h]; simp
    rw [jsMapGet_isSome_iff]
    simp [hnotin]
  | some v =>
    have hin : k ∈ s.map Prod.fst := by rw [← lastWrite_isSome_iff, h]; simp
    simp [hin]

theorem applyWrites_keys_nodup {K V : Type} [DecidableEq K] (s m : List (K × V))
    (h : (jsMapKeys m).Nodup) : (jsMapKeys (applyWrites s m)).Nodup := by
  induction s generalizing m with
  | nil => exact h
  | cons w rest ih =>
    unfold applyWrites
    simp only [List.foldl_cons]
    exact ih _ (jsMapKeys_set_nodup m w.1 w.2 h)

/-! ## Numeric helpers

JavaScript numbers are IEEE-754 doubles.  The integers this code reads are at
most 32 bits wide, hence exact; floating-point stream values are IEEE-754
singles, which are exact rationals. -/

def toInt16 (u : Nat) : Int := if u < 32768 then (u : Int) else (u : Int) - 65536

def toInt32 (u : Nat) : Int :=
  if u < 2147483648 then (u : Int) else (u : Int) - 4294967296

/-- Exact value of an IEEE-754 single-precision number assembled little-endian
from four bytes, as `DataView.getFloat32(_, true)` computes it.  All finite
encodings are represented exactly; exponent 255 (infinities and NaNs) does
not occur in streams this format produces and is mapped to 0. -/
def decodeFloat32 (b0 b1 b2 b3 : Nat) : ℚ :=
  let bits := b0 + 256 * b1 + 65536 * b2 + 16777216 * b3
  let sign : ℚ := if bits / 2147483648 % 2 = 1 then -1 else 1
  let expo := bits / 8388608 % 256
  let frac := bits % 8388608
  if expo = 255 then 0
  else if expo = 0 then sign * (frac : ℚ) / (2 ^ 149 : ℚ)
  else if 127 ≤ expo then
    sign * (((8388608 + frac : Nat) : ℚ) * ((2 ^ (expo - 127) : Nat) : ℚ) / 8388608)
  else
    sign * (((8388608 + frac : Nat) : ℚ) / ((8388608 : ℚ) * ((2 ^ (127 - expo) : Nat) : ℚ)))

/-- The `Vector` class of runtimeSpawn.ts; `toModVector` and `fromModVector`
convert to and from the host representation componentwise and are modelled as
the identity. -/
structure Vec3 where
  x : ℚ
  y : ℚ
  z : ℚ
  deriving DecidableEq

/-! ## SpatialSteamReader (runtimeSpawn.ts lines 46-108)

`mod.strings` is modelled as the list of encoded blocks in key order: the key
built from `chunkIndex` (prefix plus upper-case hex) is a bijection onto the
sequence of indices, and absence of the next index signals end-of-stream.
`chunkData` is the fixed scratch buffer of capacity `DECODE_CHUNK_SIZE`; the
model keeps its decoded contents (stale bytes beyond `currentChunkLength` are
never read by the source, so they are dropped), while size checks against the
allocated capacity use the constant itself. -/

def STR_CHUNK_SIZE : Nat := 200

def DECODE_CHUNK_SIZE : Nat := STR_CHUNK_SIZE / 2

structure SteamState where
  strings : List (List Nat)
  chunkIndex : Nat
  initialized : Bool
  chunkData : List Nat
  currentChunkLength : Nat
  chunkOffset : Nat
  eof : Bool
  deriving DecidableEq

/-- `SpatialSteamReader.updateDataChunk` (lines 63-80).  Returns the `true`
flag exactly when end-of-stream was newly reached; when `eof` is already set
it returns `false` without touching the state (the source then makes no
progress, which the read loop below surfaces as `fuelExhausted`). -/
def updateDataChunk (st : SteamState) : Except JsError (Bool × SteamState) :=
  if st.eof then .ok (false, st)
  else
    match st.strings.get? st.chunkIndex with
    | none => .ok (true, { st with eof := true })
    | some chunkStr =>
      match decodeCustomBase16 chunkStr DECODE_CHUNK_SIZE with
      | .error e => .error e
      | .ok decoded =>
        .ok (false, { st with chunkData := decoded,
                              currentChunkLength := decoded.length,
                              chunkOffset := 0,
                              chunkIndex := st.chunkIndex + 1,
                              initialized := true })

/-- The copy loop of `SpatialSteamReader.read` (lines 90-105).  Each
iteration refills the chunk when drained and copies
`min(byteCount - bytesCopied, currentChunkLength - chunkOffset)` bytes. -/
def steamReadLoop (fuel : Nat) (st : SteamState) (byteCount : Nat) (acc : List Nat) :
    Except JsError (Option (List Nat) × SteamState) :=
  match fuel with
  | 0 => .error .fuelExhausted
  | fuel + 1 =>
    if acc.length < byteCount then
      if st.initialized = false ∨ st.currentChunkLength ≤ st.chunkOffset then
        match updateDataChunk st with
        | .error e => .error e
        | .ok (true, st2) =>
          .ok (if 0 < acc.length then some acc else none, st2)
        | .ok (false, st2) =>
          let n := min (byteCount - acc.length) (st2.currentChunkLength - st2.chunkOffset)
          steamReadLoop fuel { st2 with chunkOffset := st2.chunkOffset + n } byteCount
            (acc ++ (st2.chunkData.drop st2.chunkOffset).take n)
      else
        let n := min (byteCount - acc.length) (st.currentChunkLength - st.chunkOffset)
        steamReadLoop fuel { st with chunkOffset := st.chunkOffset + n } byteCount
          (acc ++ (st.chunkData.drop st.chunkOffset).take n)
    else .ok (some acc, st)

/-- `SpatialSteamReader.read` (lines 82-107).  The guard compares
`chunkOffset` against the allocated capacity of the scratch buffer
(`chunkData.length` in the source is always `DECODE_CHUNK_SIZE`).  The fuel
covers one iteration per copied byte plus one per remaining stream block; it
runs out only when the source loop makes no progress, i.e. diverges. -/
def steamRead (st : SteamState) (byteCount : Nat) :
    Except JsError (Option (List Nat) × SteamState) :=
  if st.eof = true ∧ DECODE_CHUNK_SIZE ≤ st.chunkOffset then .ok (none, st)
  else steamReadLoop (byteCount + (st.strings.length - st.chunkIndex) + 2) st byteCount []

/-! ## AsyncBinaryReader (runtimeSpawn.ts lines 111-232)

`buffer` holds the valid window contents `[0, bufLength)`; the allocated
backing array has capacity `BUFFER_SIZE` and its bytes beyond `bufLength` are
never read by the source.  `bufLength` is therefore `buffer.length`. -/

def BUFFER_SIZE : Nat := 100

structure ReaderState where
  steam : SteamState
  buffer : List Nat
  bufOffset : Nat
  totalOffset : Nat
  isStringReaderEof : Bool
  deriving DecidableEq

/-- The compaction step of `ensureData` (lines 132-140): shift unread bytes
to offset 0, or reset an exhausted window. -/
def compactBuffer (st : ReaderState) : ReaderState :=
  if 0 < st.bufOffset ∧ st.bufOffset < st.buffer.length then
    { st with buffer := st.buffer.drop st.bufOffset, bufOffset := 0 }
  else if st.buffer.length ≤ st.bufOffset then
    { st with buffer := [], bufOffset := 0 }
  else st

/-- The refill loop of `ensureData` (lines 142-154): pull up to
`BUFFER_SIZE - bufLength` bytes from the steam reader until enough data is
buffered or end-of-stream is recorded.  Every productive iteration appends at
least one byte, so `BUFFER_SIZE + 1` fuel is never exhausted. -/
def refillLoop (fuel : Nat) (st : ReaderState) (byteCount : Nat) :
    Except JsError ReaderState :=
  match fuel with
  | 0 => .error .fuelExhausted
  | fuel + 1 =>
    if st.buffer.length - st.bufOffset < byteCount ∧ st.isStringReaderEof = false then
      if BUFFER_SIZE - st.buffer.length = 0 then .ok st
      else
        match steamRead st.steam (BUFFER_SIZE - st.buffer.length) with
        | .error e => .error e
        | .ok (some chunk, steam2) =>
          if 0 < chunk.length then
            refillLoop fuel { st with steam := steam2, buffer := st.buffer ++ chunk } byteCount
          else .ok { st with steam := steam2, isStringReaderEof := true }
        | .ok (none, steam2) => .ok { st with steam := steam2, isStringReaderEof := true }
    else .ok st

/-- `AsyncBinaryReader.ensureData` (lines 129-159). -/
def ensureData (st : ReaderState) (byteCount : Nat) : Except JsError ReaderState :=
  if byteCount ≤ st.buffer.length - st.bufOffset then .ok st
  else
    match refillLoop (BUFFER_SIZE + 1) (compactBuffer st) byteCount with
    | .error e => .error e
    | .ok st2 =>
      if st2.buffer.length - st2.bufOffset < byteCount then
        .error (.unexpectedEOF byteCount (st2.buffer.length - st2.bufOffset))
      else .ok st2

/-- `AsyncBinaryReader.readRaw` (lines 161-167): ensure `size` bytes, return
the window offset they start at, and advance both offsets. -/
def readRaw (st : ReaderState) (size : Nat) : Except JsError (Nat × ReaderState) :=
  match ensureData st size with
  | .error e => .error e
  | .ok st2 =>
    .ok (st2.bufOffset, { st2 with bufOffset := st2.bufOffset + size,
                                   totalOffset := st2.totalOffset + size })

def readByte (st : ReaderState) : Except JsError (Nat × ReaderState) :=
  match readRaw st 1 with
  | .error e => .error e
  | .ok (off, st2) => .ok (st2.buffer.getD off 0, st2)

def readUInt16 (st : ReaderState) : Except JsError (Nat × ReaderState) :=
  match readRaw st 2 with
  | .error e => .error e
  | .ok (off, st2) =>
    .ok (st2.buffer.getD off 0 + 256 * st2.buffer.getD (off + 1) 0, st2)

def readInt16 (st : ReaderState) : Except JsError (Int × ReaderState) :=
  match readUInt16 st with
  | .error e => .error e
  | .ok (u, st2) => .ok (toInt16 u, st2)

def readUInt32 (st : ReaderState) : Except JsError (Nat × ReaderState) :=
  match readRaw st 4 with
  | .error e => .error e
  | .ok (off, st2) =>
    .ok (st2.buffer.getD off 0 + 256 * st2.buffer.getD (off + 1) 0 +
         65536 * st2.buffer.getD (off + 2) 0 + 16777216 * st2.buffer.getD (off + 3) 0, st2)

def readInt32 (st : ReaderState) : Except JsError (Int × ReaderState) :=
  match readUInt32 st with
  | .error e => .error e
  | .ok (u, st2) => .ok (toInt32 u, st2)

def readFloat32 (st : ReaderState) : Except JsError (ℚ × ReaderState) :=
  match readRaw st 4 with
  | .error e => .error e
  | .ok (off, st2) =>
    .ok (decodeFloat32 (st2.buffer.getD off 0) (st2.buffer.getD (off + 1) 0)
          (st2.buffer.getD (off + 2) 0) (st2.buffer.getD (off + 3) 0), st2)

def readFloatVector (st : ReaderState) : Except JsError (Vec3 × ReaderState) :=
  match readFloat32 st with
  | .error e => .error e
  | .ok (x, st2) =>
    match readFloat32 st2 with
    | .error e => .error e
    | .ok (y, st3) =>
      match readFloat32 st3 with
      | .error e => .error e
      | .ok (z, st4) => .ok (⟨x, y, z⟩, st4)

/-! ## decodeUTF8 (runtimeSpawn.ts lines 235-273)

Decodes UTF-8 bytes into the UTF-16 code units `String.fromCharCode`
receives (astral code points become surrogate pairs). -/

def decodeUTF8Loop (fuel : Nat) (bytes : List Nat) (i endPos : Nat) :
    Except JsError (List Nat) :=
  match fuel with
  | 0 => .error .fuelExhausted
  | fuel + 1 =>
    if i < endPos then
      let c := bytes.getD i 0
      if c < 128 then
        match decodeUTF8Loop fuel bytes (i + 1) endPos with
        | .error e => .error e
        | .ok rest => .ok (c :: rest)
      else if 191 < c ∧ c < 224 then
        if endPos ≤ i + 1 then .error .utf8Incomplete
        else
          let c2 := bytes.getD (i + 1) 0
          match decodeUTF8Loop fuel bytes (i + 2) endPos with
          | .error e => .error e
          | .ok rest => .ok ((((c &&& 31) <<< 6) ||| (c2 &&& 63)) :: rest)
      else if 223 < c ∧ c < 240 then
        if endPos ≤ i + 2 then .error .utf8Incomplete
        else
          let c2 := bytes.getD (i + 1) 0
          let c3 := bytes.getD (i + 2) 0
          match decodeUTF8Loop fuel bytes (i + 3) endPos with
          | .error e => .error e
          | .ok rest => .ok ((((c &&& 15) <<< 12) ||| ((c2 &&& 63) <<< 6) ||| (c3 &&& 63)) :: rest)
      else
        if endPos ≤ i + 3 then .error .utf8Incomplete
        else
          let c2 := bytes.getD (i + 1) 0
          let c3 := bytes.getD (i + 2) 0
          let c4 := bytes.getD (i + 3) 0
          let codePoint := ((c &&& 7) <<< 18) ||| ((c2 &&& 63) <<< 12) |||
            ((c3 &&& 63) <<< 6) ||| (c4 &&& 63)
          match decodeUTF8Loop fuel bytes (i + 4) endPos with
          | .error e => .error e
          | .ok rest =>
            if codePoint < 65536 then .ok (codePoint :: rest)
            else .ok ((55296 + ((codePoint - 65536) >>> 10)) ::
                      (56320 + ((codePoint - 65536) &&& 1023)) :: rest)
    else .ok []

def decodeUTF8 (bytes : List Nat) (start length : Nat) : Except JsError (List Nat) :=
  if bytes.length < start + length then .error .utf8Range
  else decodeUTF8Loop (length + 1) bytes start (start + length)

/-! ## readString (runtimeSpawn.ts lines 197-231)

A 7-bit-group variable-length length prefix followed by that many UTF-8
bytes.  The 32-bit wrap of the JavaScript bitwise operators is not modelled:
string lengths in this format are far below 2^28, where the two agree. -/

def readVarintLoop (fuel : Nat) (st : ReaderState) (acc shiftAmt : Nat) :
    Except JsError (Nat × ReaderState) :=
  match fuel with
  | 0 => .error .fuelExhausted
  | fuel + 1 =>
    match readByte st with
    | .error e => .error e
    | .ok (b, st2) =>
      let acc2 := acc ||| ((b &&& 127) <<< shiftAmt)
      if b &&& 128 ≠ 0 then readVarintLoop fuel st2 acc2 (shiftAmt + 7)
      else .ok (acc2, st2)

/-- The cross-window assembly loop of `readString` (lines 220-228). -/
def readStringTailLoop (fuel : Nat) (st : ReaderState) (byteCount : Nat) (acc : List Nat) :
    Except JsError (List Nat × ReaderState) :=
  match fuel with
  | 0 => .error .fuelExhausted
  | fuel + 1 =>
    if acc.length < byteCount then
      match ensureData st 1 with
      | .error e => .error e
      | .ok st2 =>
        let n := min (byteCount - acc.length) (st2.buffer.length - st2.bufOffset)
        readStringTailLoop fuel
          { st2 with bufOffset := st2.bufOffset + n, totalOffset := st2.totalOffset + n }
          byteCount (acc ++ (st2.buffer.drop st2.bufOffset).take n)
    else
      match decodeUTF8 acc 0 byteCount with
      | .error e => .error e
      | .ok s => .ok (s, st)

/-- `AsyncBinaryReader.readString`.  The varint fuel bounds the number of
length bytes by the total bytes the stream can still deliver (each iteration
consumes one byte, and a drained stream makes `readByte` fail). -/
def readString (st : ReaderState) : Except JsError (List Nat × ReaderState) :=
  match readVarintLoop
      (st.buffer.length + st.steam.strings.length * DECODE_CHUNK_SIZE + 2) st 0 0 with
  | .error e => .error e
  | .ok (byteCount, st2) =>
    if byteCount ≤ st2.buffer.length - st2.bufOffset then
      match decodeUTF8 st2.buffer st2.bufOffset byteCount with
      | .error e => .error e
      | .ok s =>
        .ok (s, { st2 with bufOffset := st2.bufOffset + byteCount,
                           totalOffset := st2.totalOffset + byteCount })
    else readStringTailLoop (byteCount + 1) st2 byteCount []

theorem compactBuffer_avail (st : ReaderState) :
    (compactBuffer st).buffer.length - (compactBuffer st).bufOffset =
        st.buffer.length - st.bufOffset ∧
      (compactBuffer st).isStringReaderEof = st.isStringReaderEof := by
  unfold compactBuffer
  split_ifs with h1 h2
  · exact ⟨by simp only [List.length_drop]; omega, rfl⟩
  · exact ⟨by simp only [List.length_nil]; omega, rfl⟩
  · exact ⟨rfl, rfl⟩

theorem compactBuffer_steam (st : ReaderState) : (compactBuffer st).steam = st.steam := by
  unfold compactBuffer
  split_ifs <;> rfl

theorem steamReadLoop_exhaust (fuel bc : Nat) (stm : SteamState)
    (hfuel : 0 < fuel) (hbc : 0 < bc)
    (heof : stm.eof = false)
    (hlen : stm.strings.length ≤ stm.chunkIndex)
    (hdrain : stm.initialized = false ∨ stm.currentChunkLength ≤ stm.chunkOffset) :
    steamReadLoop fuel stm bc [] = .ok (none, { stm with eof := true }) := by
  cases fuel with
  | zero => omega
  | succ f =>
    unfold steamReadLoop
    rw [if_pos (by simpa using hbc)]
    rw [if_pos hdrain]
    unfold updateDataChunk
    rw [if_neg (by rw [heof]; simp)]
    rw [List.get?_eq_none.mpr hlen]
    rfl

/-- C9, amended: whenever the reader runs out of stream while bytes are
still owed — whether end-of-stream was already recorded
(`_isStringReaderEof`) at entry, or is discovered by the failing call itself
because the steam reader sits past its last transport string with its
scratch chunk drained — `ensureData` fails with the fatal unexpected
end-of-stream error whose diagnostic carries only the shortfall — the bytes
needed and the bytes available — and not the stream byte position. -/
theorem claim_C9 (st : ReaderState) (n : Nat)
    (h1 : st.isStringReaderEof = true ∨
      (st.isStringReaderEof = false ∧ st.steam.eof = false ∧
        st.steam.strings.length ≤ st.steam.chunkIndex ∧
        (st.steam.initialized = false ∨
          st.steam.currentChunkLength ≤ st.steam.chunkOffset)))
    (h2 : st.buffer.length - st.bufOffset < n) :
    ensureData st n = .error (.unexpectedEOF n (st.buffer.length - st.bufOffset)) := by
  obtain ⟨havail, hflag⟩ := compactBuffer_avail st
  rcases h1 with h1 | ⟨hflagF, heof, hlen, hdrain⟩
  · unfold ensureData refillLoop
    rw [if_neg (by omega)]
    rw [if_neg (by rw [hflag, h1]; simp)]
    simp only [havail]
    rw [if_pos h2]
  · unfold ensureData refillLoop
    rw [if_neg (by omega)]
    rw [if_pos (by rw [hflag, hflagF]; exact ⟨by omega, rfl⟩)]
    by_cases hfull : BUFFER_SIZE - (compactBuffer st).buffer.length = 0
    · rw [if_pos hfull]
      simp only [havail]
      rw [if_pos h2]
    · rw [if_neg hfull]
      have hsr : steamRead (compactBuffer st).steam
          (BUFFER_SIZE - (compactBuffer st).buffer.length) =
          .ok (none, { st.steam with eof := true }) := by
        rw [compactBuffer_steam]
        unfold steamRead
        rw [if_neg (by rw [heof]; simp)]
        exact steamReadLoop_exhaust _ _ _ (by omega) (Nat.pos_of_ne_zero hfull)
          heof hlen hdrain
      rw [hsr]
      simp only [havail]
      rw [if_pos h2]

theorem claim_C9_witness :
    ensureData
        ⟨⟨[], 0, false, List.replicate DECODE_CHUNK_SIZE 0, 0, 0, false⟩, [], 0, 7, false⟩ 5 =
      .error (.unexpectedEOF 5 0) :=
  claim_C9 ⟨⟨[], 0, false, List.replicate DECODE_CHUNK_SIZE 0, 0, 0, false⟩, [], 0, 7, false⟩ 5
    (Or.inr ⟨rfl, rfl, by decide, Or.inl rfl⟩) (by decide)

/-- C9 counterexample: two reader states at different stream byte positions
(totalOffset 0 and totalOffset 7), both at recorded end-of-stream with an
empty window, produce the same unexpected-end-of-stream error on the same
read: the diagnostic carries the shortfall (need 3, have 0) but does not
include the byte position, contrary to the claim. -/
theorem claim_C9_counterexample :
    ensureData
        ⟨⟨[], 0, false, List.replicate DECODE_CHUNK_SIZE 0, 0, 0, true⟩, [], 0, 0, true⟩ 3 =
      .error (.unexpectedEOF 3 0) ∧
    ensureData
        ⟨⟨[], 0, false, List.replicate DECODE_CHUNK_SIZE 0, 0, 0, true⟩, [], 0, 7, true⟩ 3 =
      .error (.unexpectedEOF 3 0) ∧
    (⟨⟨[], 0, false, List.replicate DECODE_CHUNK_SIZE 0, 0, 0, true⟩, [], 0, 0, true⟩ :
        ReaderState).totalOffset ≠
      (⟨⟨[], 0, false, List.replicate DECODE_CHUNK_SIZE 0, 0, 0, true⟩, [], 0, 7, true⟩ :
        ReaderState).totalOffset := by
  refine ⟨?_, ?_, by decide⟩
  · exact claim_C9 _ 3 (Or.inl rfl) (by decide)
  · exact claim_C9 _ 3 (Or.inl rfl) (by decide)

/-! ## IncrementalDataParser (runtimeSpawn.ts lines 353-566)

Host enum objects (`mod.RuntimeSpawn_*`) map type names to opaque numeric
identifiers; they are out-of-scope host data and enter the model as
association-list parameters.  Type names are UTF-16 code-unit lists, the
values host type identifiers. -/

def TypeTable : Type := List (List Nat × Int)

instance : DecidableEq TypeTable := by unfold TypeTable; infer_instance

/-- One placed object (the `SpatialObject` interface, lines 309-317).  The
pre-computed `modPosition` / `modScale` / `modRotation` host vectors equal
`position`, `scale` and `rotation` componentwise; the host conversion is the
identity in the model, so they are stored once. -/
structure SpatialObject where
  uid : Nat
  typeId : Int
  position : Vec3
  scale : Vec3
  rotation : Vec3
  deriving DecidableEq

structure ChunkInfo where
  cx : Int
  cy : Int
  cz : Int
  offset : Nat
  length : Nat
  deriving DecidableEq

/-- `ObjectSpan` (lines 327-330); `stop` is the field named `end` in the
source, which is a reserved word here. -/
structure ObjectSpan where
  start : Nat
  stop : Nat
  deriving DecidableEq

structure MapObjectData where
  chunkObjects : List (Option SpatialObject)
  chunkSegments : List ((Int × Int × Int) × ObjectSpan)
  chunkSize : ℚ
  objectCount : Nat
  uidToChunk : List (Nat × (Int × Int × Int))
  deriving DecidableEq

/-- The `MapObjectData` constructor (lines 339-350): `objectCount` is the
length of the object array, i.e. the header-declared total used to
preallocate it, not the number of accepted objects. -/
def mkMapObjectData (chunkObjects : List (Option SpatialObject))
    (chunkSegments : List ((Int × Int × Int) × ObjectSpan)) (chunkSize : ℚ)
    (uidToChunk : List (Nat × (Int × Int × Int))) : MapObjectData :=
  ⟨chunkObjects, chunkSegments, chunkSize, chunkObjects.length, uidToChunk⟩

/-- A JavaScript array write `a[i] = v`: in-bounds writes replace the slot,
out-of-bounds writes extend the array with holes.  Holes (`none`) are the
slots never assigned. -/
def jsArraySet {A : Type} (a : List (Option A)) (i : Nat) (v : A) : List (Option A) :=
  if i < a.length then a.set i (some v)
  else a ++ List.replicate (i - a.length) none ++ [some v]

/-- The parser state (fields of `IncrementalDataParser`).  The palette and
chunk-index arrays are preallocated in the source; their lengths live in the
`...Count` fields until `parseDataPalette` fills them.  `declaredObjectCount`
is the constructor local `objectCount`, retained because it is the length of
the preallocated `chunkObjects` array.  `warnings` records each
`console.warn` for an unresolved type (the unresolved palette entry), and
`catchLogs` counts the catch-path `console.log` skips. -/
structure ParserState where
  reader : ReaderState
  chunkInfos : List ChunkInfo
  scalePalette : List Vec3
  rotationPalette : List Vec3
  typePalette : List (List Nat)
  chunkObjects : List (Option SpatialObject)
  chunkMap : List ((Int × Int × Int) × ObjectSpan)
  uidToChunk : List (Nat × (Int × Int × Int))
  chunkSize : ℚ
  mapSpecificEnum : Option TypeTable
  commonEnum : TypeTable
  headerParsed : Bool
  currentChunkIndex : Nat
  currentObjectCount : Nat
  isComplete : Bool
  chunksMinBounds : Vec3
  chunksMaxBounds : Vec3
  declaredObjectCount : Nat
  scalePaletteCount : Nat
  rotationPaletteCount : Nat
  typePaletteCount : Nat
  chunkInfoCount : Nat
  warnings : List (Option (List Nat))
  catchLogs : Nat
  deriving DecidableEq

def CHUNKS_PER_CYCLE : Nat := 2

/-- `Math.PI`, the IEEE-754 double closest to the circle constant. -/
def mathPI : ℚ := 884279719003555 / 281474976710656

def MaxUint16 : ℚ := 65535

def ScaleMax : ℚ := 100

def RotationRange : ℚ := mathPI * 2

def RotationOffset : ℚ := mathPI

/-- `origin + (raw / MaxUint16) * chunkSize` (lines 490-492). -/
def dequantPosComponent (originComp : ℚ) (raw : Nat) (chunkSize : ℚ) : ℚ :=
  originComp + ((raw : ℚ) / MaxUint16) * chunkSize

/-- `(raw / MaxUint16) * ScaleMax` (lines 504-506). -/
def dequantScaleComponent (raw : Nat) : ℚ :=
  ((raw : ℚ) / MaxUint16) * ScaleMax

/-- `(raw / MaxUint16) * RotationRange - RotationOffset` (lines 514-516). -/
def dequantRotComponent (raw : Nat) : ℚ :=
  ((raw : ℚ) / MaxUint16) * RotationRange - RotationOffset

/-- Type resolution (lines 523-527): check the map-specific enum first when
it exists and has the name, otherwise the common enum.  An out-of-range
palette index gives an undefined name, which neither table contains. -/
def resolveTypeId (mapEnum : Option TypeTable) (commonTable : TypeTable)
    (typeName : Option (List Nat)) : Option Int :=
  match typeName with
  | none => none
  | some name =>
    match mapEnum with
    | some t =>
      match jsMapGet t name with
      | some v => some v
      | none => jsMapGet commonTable name
    | none => jsMapGet commonTable name

def initialReader (strings : List (List Nat)) : ReaderState :=
  ⟨⟨strings, 0, false, List.replicate DECODE_CHUNK_SIZE 0, 0, 0, false⟩, [], 0, 0, false⟩

/-- The `IncrementalDataParser` constructor (lines 384-415): version check,
header fields, and preallocation.  `mapTypeToEnum` and `commonTable` are the
host enum tables (lines 276-288 and `mod.RuntimeSpawn_Common`). -/
def mkParser (strings : List (List Nat)) (mapTypeToEnum : List (List Nat × TypeTable))
    (commonTable : TypeTable) : Except JsError ParserState := do
  let (version, st) ← readUInt16 (initialReader strings)
  if version ≠ 1 then .error (.versionMismatch version)
  else do
    let (chunkSize, st) ← readFloat32 st
    let (mapType, st) ← readString st
    let mapSpecificEnum := jsMapGet mapTypeToEnum mapType
    let (objectCount, st) ← readInt32 st
    let (chunkCount, st) ← readUInt16 st
    let (minB, st) ← readFloatVector st
    let (maxB, st) ← readFloatVector st
    let (scalePaletteCount, st) ← readUInt16 st
    let (rotationPaletteCount, st) ← readUInt16 st
    let (typePaletteCount, st) ← readUInt16 st
    .ok { reader := st
          chunkInfos := []
          scalePalette := []
          rotationPalette := []
          typePalette := []
          chunkObjects := List.replicate objectCount.toNat none
          chunkMap := []
          uidToChunk := []
          chunkSize := chunkSize
          mapSpecificEnum := mapSpecificEnum
          commonEnum := commonTable
          headerParsed := false
          currentChunkIndex := 0
          currentObjectCount := 0
          isComplete := false
          chunksMinBounds := minB
          chunksMaxBounds := maxB
          declaredObjectCount := objectCount.toNat
          scalePaletteCount := scalePaletteCount
          rotationPaletteCount := rotationPaletteCount
          typePaletteCount := typePaletteCount
          chunkInfoCount := chunkCount
          warnings := []
          catchLogs := 0 }

def readVec3List (count : Nat) (st : ReaderState) (acc : List Vec3) :
    Except JsError (List Vec3 × ReaderState) :=
  match count with
  | 0 => .ok (acc, st)
  | c + 1 =>
    match readFloatVector st with
    | .error e => .error e
    | .ok (v, st2) => readVec3List c st2 (acc ++ [v])

def readStringList (count : Nat) (st : ReaderState) (acc : List (List Nat)) :
    Except JsError (List (List Nat) × ReaderState) :=
  match count with
  | 0 => .ok (acc, st)
  | c + 1 =>
    match readString st with
    | .error e => .error e
    | .ok (v, st2) => readStringList c st2 (acc ++ [v])

def readChunkInfoList (count : Nat) (st : ReaderState) (acc : List ChunkInfo) :
    Except JsError (List ChunkInfo × ReaderState) :=
  match count with
  | 0 => .ok (acc, st)
  | c + 1 => do
    let (cx, st) ← readInt16 st
    let (cy, st) ← readInt16 st
    let (cz, st) ← readInt16 st
    let (offset, st) ← readUInt32 st
    let (length, st) ← readUInt32 st
    readChunkInfoList c st (acc ++ [⟨cx, cy, cz, offset, length⟩])

/-- `parseDataPalette` (lines 417-442): scale vectors, rotation vectors, type
names, then the chunk index; calling it twice is a no-op. -/
def parseDataPalette (p : ParserState) : Except JsError ParserState :=
  if p.headerParsed then .ok p
  else do
    let (scales, st) ← readVec3List p.scalePaletteCount p.reader []
    let (rots, st) ← readVec3List p.rotationPaletteCount st []
    let (types, st) ← readStringList p.typePaletteCount st []
    let (infos, st) ← readChunkInfoList p.chunkInfoCount st []
    .ok { p with reader := st, scalePalette := scales, rotationPalette := rots,
                 typePalette := types, chunkInfos := infos, headerParsed := true }

/-- The scale field of one object record (lines 497-506): palette sentinel
255 means three inline quantized components, anything else a palette lookup. -/
def readScaleField (scaleIdx : Nat) (palette : List Vec3) (st : ReaderState) :
    Except JsError (Option Vec3 × ReaderState) :=
  if 255 ≤ scaleIdx then do
    let (sx, st) ← readUInt16 st
    let (sy, st) ← readUInt16 st
    let (sz, st) ← readUInt16 st
    pure (some (⟨dequantScaleComponent sx, dequantScaleComponent sy,
      dequantScaleComponent sz⟩ : Vec3), st)
  else pure (palette.get? scaleIdx, st)

/-- The rotation field of one object record (lines 508-517), same shape. -/
def readRotField (rotIdx : Nat) (palette : List Vec3) (st : ReaderState) :
    Except JsError (Option Vec3 × ReaderState) :=
  if 255 ≤ rotIdx then do
    let (rx, st) ← readUInt16 st
    let (ry, st) ← readUInt16 st
    let (rz, st) ← readUInt16 st
    pure (some (⟨dequantRotComponent rx, dequantRotComponent ry,
      dequantRotComponent rz⟩ : Vec3), st)
  else pure (palette.get? rotIdx, st)

/-- The object loop of `processChunk` (lines 489-551).  An unresolved type
name warns and skips without consuming a uid; an out-of-range scale or
rotation palette index makes the host vector conversion inside the try block
throw after the uid was consumed, so the catch path skips the object while
keeping the uid spent. -/
def processObjects (count : Nat) (p : ParserState) (origin : Vec3)
    (chunkKey : Int × Int × Int) (span : ObjectSpan) :
    Except JsError (ParserState × ObjectSpan) :=
  match count with
  | 0 => .ok (p, span)
  | c + 1 => do
    let (rawX, st) ← readUInt16 p.reader
    let (rawY, st) ← readUInt16 st
    let (rawZ, st) ← readUInt16 st
    let pos : Vec3 := ⟨dequantPosComponent origin.x rawX p.chunkSize,
                       dequantPosComponent origin.y rawY p.chunkSize,
                       dequantPosComponent origin.z rawZ p.chunkSize⟩
    let (scaleIdx, st) ← readByte st
    let (rotIdx, st) ← readByte st
    let (typeIdx, st) ← readUInt16 st
    let (scaleOpt, st) ← readScaleField scaleIdx p.scalePalette st
    let (rotOpt, st) ← readRotField rotIdx p.rotationPalette st
    let p2 := { p with reader := st }
    let typeName := p2.typePalette.get? typeIdx
    match resolveTypeId p2.mapSpecificEnum p2.commonEnum typeName with
    | none =>
      processObjects c { p2 with warnings := p2.warnings ++ [typeName] } origin chunkKey span
    | some typeId =>
      let uid := p2.currentObjectCount
      match scaleOpt, rotOpt with
      | some scaleV, some rotV =>
        processObjects c
          { p2 with currentObjectCount := uid + 1,
                    chunkObjects := jsArraySet p2.chunkObjects uid
                      ⟨uid, typeId, pos, scaleV, rotV⟩,
                    uidToChunk := jsMapSet p2.uidToChunk uid chunkKey }
          origin chunkKey { span with stop := uid + 1 }
      | _, _ =>
        processObjects c
          { p2 with currentObjectCount := uid + 1, catchLogs := p2.catchLogs + 1 }
          origin chunkKey span

/-- `processChunk` (lines 472-553).  The declared chunk offset must equal the
total bytes consumed so far; any mismatch is the fatal stream-desync error,
raised before any object data is read. -/
def processChunk (p : ParserState) (info : ChunkInfo) : Except JsError ParserState :=
  if info.offset ≠ p.reader.totalOffset then
    .error (.streamDesync info.cx info.cy info.cz info.offset p.reader.totalOffset)
  else do
    let origin : Vec3 := ⟨(info.cx : ℚ) * p.chunkSize, (info.cy : ℚ) * p.chunkSize,
                          (info.cz : ℚ) * p.chunkSize⟩
    let (objCount, st) ← readUInt16 p.reader
    let chunkKey := (info.cx, info.cy, info.cz)
    let span : ObjectSpan := ⟨p.currentObjectCount, p.currentObjectCount⟩
    let (p2, span2) ← processObjects objCount { p with reader := st } origin chunkKey span
    .ok { p2 with chunkMap := jsMapSet p2.chunkMap chunkKey span2 }

def chunkLoop (n : Nat) (i : Nat) (p : ParserState) : Except JsError ParserState :=
  match n with
  | 0 => .ok p
  | m + 1 =>
    match p.chunkInfos.get? i with
    | none => .ok p
    | some info =>
      match processChunk p info with
      | .error e => .error e
      | .ok p2 => chunkLoop m (i + 1) p2

/-- `processNextChunks` (lines 448-470): process at most `CHUNKS_PER_CYCLE`
chunk-index entries in index order, then report completion. -/
def processNextChunks (p : ParserState) : Except JsError (Bool × ParserState) :=
  if p.headerParsed = false ∨ p.isComplete then .ok (p.isComplete, p)
  else
    let endIndex := min (p.currentChunkIndex + CHUNKS_PER_CYCLE) p.chunkInfos.length
    match chunkLoop (endIndex - p.currentChunkIndex) p.currentChunkIndex p with
    | .error e => .error e
    | .ok p2 =>
      let p3 := { p2 with currentChunkIndex := endIndex }
      if p3.chunkInfos.length ≤ p3.currentChunkIndex then
        .ok (true, { p3 with isComplete := true })
      else .ok (false, p3)

/-- `getResults` (lines 558-561): nothing until completion. -/
def getResults (p : ParserState) : Option MapObjectData :=
  if p.isComplete = false then none
  else some (mkMapObjectData p.chunkObjects p.chunkMap p.chunkSize p.uidToChunk)

/-- The `OngoingGlobal` parsing driver (lines 843-859): re-invoke
`processNextChunks` until it reports completion. -/
def runChunks (fuel : Nat) (p : ParserState) : Except JsError ParserState :=
  match fuel with
  | 0 => .error .fuelExhausted
  | f + 1 =>
    match processNextChunks p with
    | .error e => .error e
    | .ok (true, p2) => .ok p2
    | .ok (false, p2) => runChunks f p2

/-- Construction, palette parse, incremental chunk processing, results. -/
def runFullParse (strings : List (List Nat)) (mapEnums : List (List Nat × TypeTable))
    (commonTable : TypeTable) (fuel : Nat) :
    Except JsError (ParserState × MapObjectData) :=
  match mkParser strings mapEnums commonTable with
  | .error e => .error e
  | .ok p =>
    match parseDataPalette p with
    | .error e => .error e
    | .ok p2 =>
      match runChunks fuel p2 with
      | .error e => .error e
      | .ok p3 =>
        match getResults p3 with
        | none => .error .fuelExhausted
        | some md => .ok (p3, md)

/-- C3: when a chunk-index entry begins processing, either the total bytes
consumed by the reader equal the declared chunk byte offset, or `processChunk`
raises the fatal stream-desync error before reading any object data: a
mismatch always yields the error (which aborts parsing, returning no state),
and a successful run certifies the counter equalled the declared offset at
entry. -/
theorem claim_C3 (p : ParserState) (info : ChunkInfo) :
    (info.offset ≠ p.reader.totalOffset →
      processChunk p info =
        .error (.streamDesync info.cx info.cy info.cz info.offset p.reader.totalOffset)) ∧
    (∀ p2, processChunk p info = .ok p2 → p.reader.totalOffset = info.offset) := by
  constructor
  · intro hne
    unfold processChunk
    rw [if_pos hne]
  · intro p2 hok
    by_cases heq : info.offset = p.reader.totalOffset
    · exact heq.symm
    · exfalso
      unfold processChunk at hok
      rw [if_pos heq] at hok
      cases hok

def desyncTestParser : ParserState :=
  { reader := initialReader []
    chunkInfos := []
    scalePalette := []
    rotationPalette := []
    typePalette := []
    chunkObjects := []
    chunkMap := []
    uidToChunk := []
    chunkSize := 64
    mapSpecificEnum := none
    commonEnum := []
    headerParsed := true
    currentChunkIndex := 0
    currentObjectCount := 0
    isComplete := false
    chunksMinBounds := ⟨0, 0, 0⟩
    chunksMaxBounds := ⟨0, 0, 0⟩
    declaredObjectCount := 0
    scalePaletteCount := 0
    rotationPaletteCount := 0
    typePaletteCount := 0
    chunkInfoCount := 0
    warnings := []
    catchLogs := 0 }

theorem claim_C3_witness :
    processChunk desyncTestParser ⟨0, 0, 0, 5, 0⟩ = .error (.streamDesync 0 0 0 5 0) :=
  (claim_C3 desyncTestParser ⟨0, 0, 0, 5, 0⟩).1 (by decide)

theorem mathPI_pos : 0 < mathPI := by norm_num [mathPI]

/-- C8 counterexample: the raw value 65535 de-quantizes to exactly +π
(`(65535/65535) × 2π − π = π`), which is the excluded upper endpoint of the
half-open interval `[−π, π)` claimed for all raw values. -/
theorem claim_C8_counterexample :
    dequantRotComponent 65535 = mathPI ∧ ¬ dequantRotComponent 65535 < mathPI := by
  have h : dequantRotComponent 65535 = mathPI := by
    unfold dequantRotComponent RotationRange RotationOffset MaxUint16
    have h1 : ((65535 : Nat) : ℚ) / 65535 = 1 := by norm_num
    rw [h1]
    ring
  exact ⟨h, by rw [h]; exact lt_irrefl mathPI⟩

/-- C8, amended: inline scale overrides de-quantize to exactly
`(raw/65535) × 100.0` and inline rotation overrides to exactly
`(raw/65535) × 2π − π`; every de-quantized rotation component lies in the
closed interval `[−π, π]`, lies in `[−π, π)` for every raw value below
65535, and attains the endpoint `+π` exactly at raw value 65535. -/
theorem claim_C8 (raw : Nat) (h : raw ≤ 65535) :
    dequantScaleComponent raw = ((raw : ℚ) / 65535) * 100 ∧
    dequantRotComponent raw = ((raw : ℚ) / 65535) * (2 * mathPI) - mathPI ∧
    -mathPI ≤ dequantRotComponent raw ∧
    dequantRotComponent raw ≤ mathPI ∧
    (raw < 65535 → dequantRotComponent raw < mathPI) ∧
    (raw = 65535 → dequantRotComponent raw = mathPI) := by
  have hpi := mathPI_pos
  have ht0 : (0 : ℚ) ≤ (raw : ℚ) / 65535 := by positivity
  have ht1 : (raw : ℚ) / 65535 ≤ 1 := by
    rw [div_le_one (by norm_num)]
    exact_mod_cast (by exact_mod_cast h : (raw : ℚ) ≤ 65535)
  have hrot : dequantRotComponent raw = ((raw : ℚ) / 65535) * (2 * mathPI) - mathPI := by
    unfold dequantRotComponent RotationRange RotationOffset MaxUint16
    ring
  refine ⟨?_, hrot, ?_, ?_, ?_, ?_⟩
  · unfold dequantScaleComponent ScaleMax MaxUint16
    ring
  · rw [hrot]
    nlinarith
  · rw [hrot]
    nlinarith
  · intro hlt
    have ht1s : (raw : ℚ) / 65535 < 1 := by
      rw [div_lt_one (by norm_num)]
      exact_mod_cast (by exact_mod_cast hlt : (raw : ℚ) < 65535)
    rw [hrot]
    nlinarith
  · intro he
    subst he
    rw [hrot]
    have h1 : ((65535 : Nat) : ℚ) / 65535 = 1 := by norm_num
    rw [h1]
    ring

theorem claim_C8_witness :
    dequantScaleComponent 13107 = ((13107 : Nat) : ℚ) / 65535 * 100 ∧
    dequantRotComponent 13107 = ((13107 : Nat) : ℚ) / 65535 * (2 * mathPI) - mathPI ∧
    -mathPI ≤ dequantRotComponent 13107 ∧
    dequantRotComponent 13107 ≤ mathPI ∧
    (13107 < 65535 → dequantRotComponent 13107 < mathPI) ∧
    (13107 = 65535 → dequantRotComponent 13107 = mathPI) :=
  claim_C8 13107 (by decide)

/-! ## DynamicObjectManager (runtimeSpawn.ts lines 568-710)

The host spawn API returns opaque handles; the model allocates them from the
`nextHandle` counter and records every `mod.SpawnObject` / `mod.UnspawnObject`
call as a `HostEvent` tagged with the uid the call site services (the source
passes the precomputed vectors of `chunkObjects[uid]`, identified by the
type id recorded in the event).  `teamMaterialMap` is the pair of host type
identifiers pushed in the constructor (lines 584-585), model parameters. -/

structure TrackedPoint where
  point : Vec3
  radius : ℚ
  team : Int
  deriving DecidableEq

inductive HostEvent : Type where
  | spawn (uid : Nat) (typeId : Int) (handle : Nat) : HostEvent
  | unspawn (uid : Nat) (handle : Nat) : HostEvent
  deriving DecidableEq

def HostEvent.uidOf : HostEvent → Nat
  | .spawn uid _ _ => uid
  | .unspawn uid _ => uid

structure MgrState where
  trackedPoints : List (String × TrackedPoint)
  desiredObjectSet : List Nat
  objectOwnership : List (Nat × Int)
  spawnedObjects : List (Nat × Nat)
  spawnedTypes : List (Nat × Int)
  nextHandle : Nat
  deriving DecidableEq

def initMgr : MgrState := ⟨[], [], [], [], [], 0⟩

/-- `addOrUpdateTrackedPoint` (lines 592-595). -/
def addOrUpdateTrackedPoint (s : MgrState) (key : String) (position : Vec3)
    (radius : ℚ) (team : Int) : MgrState :=
  { s with trackedPoints := jsMapSet s.trackedPoints key ⟨position, radius, team⟩ }

/-- `removeTrackedPoint` (lines 597-599). -/
def removeTrackedPoint (s : MgrState) (key : String) : MgrState :=
  { s with trackedPoints := jsMapDelete s.trackedPoints key }

/-- The integers from `a` to `b` inclusive, as the `for` loops of lines
648-650 visit them. -/
def intRange (a b : Int) : List Int :=
  (List.range (b + 1 - a).toNat).map (fun n => a + n)

/-- The grid cells visited for one tracked point (lines 642-650): the cube of
half-width `⌈radius / chunkSize⌉` around the cell of the point. -/
def cellsOf (chunkSize : ℚ) (tp : TrackedPoint) : List (Int × Int × Int) :=
  let chunkX := ⌊tp.point.x / chunkSize⌋
  let chunkY := ⌊tp.point.y / chunkSize⌋
  let chunkZ := ⌊tp.point.z / chunkSize⌋
  let chunkRadius := ⌈tp.radius / chunkSize⌉
  (intRange (chunkX - chunkRadius) (chunkX + chunkRadius)).flatMap (fun x =>
    (intRange (chunkY - chunkRadius) (chunkY + chunkRadius)).flatMap (fun y =>
      (intRange (chunkZ - chunkRadius) (chunkZ + chunkRadius)).map (fun z => (x, y, z))))

/-- `dx*dx + dy*dy + dz*dz` (lines 656-659). -/
def sqDist (a b : Vec3) : ℚ :=
  (a.x - b.x) * (a.x - b.x) + (a.y - b.y) * (a.y - b.y) + (a.z - b.z) * (a.z - b.z)

/-- The ownership writes one chunk segment contributes for one tracked point
(lines 654-661), in index order: each object in the span whose squared
distance to the point is at most radius squared is claimed for the team.
A hole in the object array contributes nothing (for parser-produced data the
spans cover no holes). -/
def segmentWrites (md : MapObjectData) (tp : TrackedPoint) (span : ObjectSpan) :
    List (Nat × Int) :=
  (List.range' span.start (span.stop - span.start)).filterMap (fun i =>
    match md.chunkObjects.getD i none with
    | some obj =>
      if sqDist obj.position tp.point ≤ tp.radius * tp.radius then some (obj.uid, tp.team)
      else none
    | none => none)

/-- All ownership writes one tracked point performs (lines 637-667). -/
def pointWrites (md : MapObjectData) (tp : TrackedPoint) : List (Nat × Int) :=
  (cellsOf md.chunkSize tp).flatMap (fun c =>
    match jsMapGet md.chunkSegments c with
    | some span => segmentWrites md tp span
    | none => [])

/-- The full ordered write sequence of the claim phase of `update`: tracked
points in insertion order, cube cells and segment indices nested inside.  The
loop reads only the tracked points and the immutable dataset, never the
ownership map, so the claim phase is exactly `applyWrites` of this list. -/
def claimWrites (md : MapObjectData) (tps : List (String × TrackedPoint)) :
    List (Nat × Int) :=
  tps.flatMap (fun e => pointWrites md e.2)

/-- `teamMaterialMap[team] || objToSpawn.typeId` (line 679): JavaScript array
indexing with a negative or out-of-range index yields undefined, and `||`
falls through on the falsy values undefined and 0. -/
def desiredTypeIdOf (teamMaterialMap : List Int) (team : Int) (objTypeId : Int) : Int :=
  match (if 0 ≤ team then teamMaterialMap.get? team.toNat else none) with
  | some v => if v = 0 then objTypeId else v
  | none => objTypeId

/-- One iteration of the reconcile loop over the desired set (lines 676-708).
The source binds `team`, `desiredTypeId` and `newHandle` locally; they are
inlined here (`newHandle` is the handle counter, unchanged by the deletes).
A missing `chunkObjects[uid]` entry is not produced for the uids this loop
receives from parser data; the model makes it a no-op. -/
def spawnStep (md : MapObjectData) (tm : List Int)
    (acc : MgrState × List HostEvent) (uid : Nat) : MgrState × List HostEvent :=
  match md.chunkObjects.getD uid none with
  | none => acc
  | some objToSpawn =>
    match jsMapGet acc.1.spawnedObjects uid with
    | some handle =>
      if jsMapGet acc.1.spawnedTypes uid ≠ some (desiredTypeIdOf tm
          ((jsMapGet acc.1.objectOwnership uid).getD (-1)) objToSpawn.typeId) then
        ({ acc.1 with
            spawnedObjects := jsMapSet (jsMapDelete acc.1.spawnedObjects uid) uid
              acc.1.nextHandle,
            spawnedTypes := jsMapSet (jsMapDelete acc.1.spawnedTypes uid) uid
              (desiredTypeIdOf tm ((jsMapGet acc.1.objectOwnership uid).getD (-1))
                objToSpawn.typeId),
            nextHandle := acc.1.nextHandle + 1 },
         acc.2 ++ [.unspawn uid handle,
                   .spawn uid (desiredTypeIdOf tm
                     ((jsMapGet acc.1.objectOwnership uid).getD (-1)) objToSpawn.typeId)
                     acc.1.nextHandle])
      else acc
    | none =>
      ({ acc.1 with
          spawnedObjects := jsMapSet acc.1.spawnedObjects uid acc.1.nextHandle,
          spawnedTypes := jsMapSet acc.1.spawnedTypes uid
            (desiredTypeIdOf tm ((jsMapGet acc.1.objectOwnership uid).getD (-1))
              objToSpawn.typeId),
          nextHandle := acc.1.nextHandle + 1 },
       acc.2 ++ [.spawn uid (desiredTypeIdOf tm
         ((jsMapGet acc.1.objectOwnership uid).getD (-1)) objToSpawn.typeId)
         acc.1.nextHandle])

/-- `DynamicObjectManager.update` (lines 635-709): claim in-range objects for
teams (the ownership writes), rebuild the desired set as every owned uid in
map iteration order, then spawn or respawn desired objects — nothing is ever
despawned except immediately before a respawn with a changed visual type. -/
def update (md : MapObjectData) (teamMaterialMap : List Int) (s : MgrState) :
    MgrState × List HostEvent :=
  let s1 := { s with
    objectOwnership := applyWrites (claimWrites md s.trackedPoints) s.objectOwnership }
  let s2 := { s1 with desiredObjectSet := jsMapKeys s1.objectOwnership }
  s2.desiredObjectSet.foldl (spawnStep md teamMaterialMap) (s2, [])

/-- The manager states the host can produce: the freshly constructed manager,
then any sequence of tracked-point upserts and removals and update ticks. -/
inductive Reachable (md : MapObjectData) (tm : List Int) : MgrState → Prop where
  | init : Reachable md tm initMgr
  | add (s : MgrState) (key : String) (position : Vec3) (radius : ℚ) (team : Int) :
      Reachable md tm s → Reachable md tm (addOrUpdateTrackedPoint s key position radius team)
  | remove (s : MgrState) (key : String) :
      Reachable md tm s → Reachable md tm (removeTrackedPoint s key)
  | step (s : MgrState) : Reachable md tm s → Reachable md tm (update md tm s).1

theorem spawnStep_fixed (md : MapObjectData) (tm : List Int)
    (acc : MgrState × List HostEvent) (uid : Nat) :
    (spawnStep md tm acc uid).1.objectOwnership = acc.1.objectOwnership ∧
    (spawnStep md tm acc uid).1.trackedPoints = acc.1.trackedPoints ∧
    (spawnStep md tm acc uid).1.desiredObjectSet = acc.1.desiredObjectSet := by
  unfold spawnStep
  repeat' split
  all_goals exact ⟨rfl, rfl, rfl⟩

theorem foldSpawn_fixed (md : MapObjectData) (tm : List Int) (L : List Nat)
    (acc : MgrState × List HostEvent) :
    (L.foldl (spawnStep md tm) acc).1.objectOwnership = acc.1.objectOwnership ∧
    (L.foldl (spawnStep md tm) acc).1.trackedPoints = acc.1.trackedPoints ∧
    (L.foldl (spawnStep md tm) acc).1.desiredObjectSet = acc.1.desiredObjectSet := by
  induction L generalizing acc with
  | nil => exact ⟨rfl, rfl, rfl⟩
  | cons u rest ih =>
    simp only [List.foldl_cons]
    obtain ⟨h1, h2, h3⟩ := ih (spawnStep md tm acc u)
    obtain ⟨g1, g2, g3⟩ := spawnStep_fixed md tm acc u
    exact ⟨h1.trans g1, h2.trans g2, h3.trans g3⟩

theorem spawnStep_trace (md : MapObjectData) (tm : List Int)
    (acc : MgrState × List HostEvent) (uid : Nat) :
    ∃ evs, (spawnStep md tm acc uid).2 = acc.2 ++ evs ∧
      ∀ ev ∈ evs, ev.uidOf = uid := by
  unfold spawnStep
  repeat' split
  · exact ⟨[], (List.append_nil _).symm, by simp⟩
  · refine ⟨_, rfl, ?_⟩
    intro ev hev
    simp only [List.mem_cons, List.not_mem_nil, or_false] at hev
    rcases hev with h | h <;> (subst h; rfl)
  · exact ⟨[], (List.append_nil _).symm, by simp⟩
  · refine ⟨_, rfl, ?_⟩
    intro ev hev
    simp only [List.mem_cons, List.not_mem_nil, or_false] at hev
    subst hev
    rfl

theorem foldSpawn_trace (md : MapObjectData) (tm : List Int) (L : List Nat)
    (acc : MgrState × List HostEvent) :
    ∃ evs, (L.foldl (spawnStep md tm) acc).2 = acc.2 ++ evs ∧
      ∀ ev ∈ evs, ev.uidOf ∈ L := by
  induction L generalizing acc with
  | nil => exact ⟨[], (List.append_nil _).symm, by simp⟩
  | cons u rest ih =>
    simp only [List.foldl_cons]
    obtain ⟨evs1, he1, hu1⟩ := spawnStep_trace md tm acc u
    obtain ⟨evs2, he2, hu2⟩ := ih (spawnStep md tm acc u)
    refine ⟨evs1 ++ evs2, ?_, ?_⟩
    · rw [he2, he1, List.append_assoc]
    · intro ev hev
      rcases List.mem_append.mp hev with h | h
      · rw [hu1 ev h]; exact List.mem_cons_self _ _
      · exact List.mem_cons_of_mem _ (hu2 ev h)

theorem spawnStep_get_ne (md : MapObjectData) (tm : List Int)
    (acc : MgrState × List HostEvent) (uid' uid : Nat) (hne : uid ≠ uid') :
    jsMapGet (spawnStep md tm acc uid').1.spawnedObjects uid =
      jsMapGet acc.1.spawnedObjects uid ∧
    jsMapGet (spawnStep md tm acc uid').1.spawnedTypes uid =
      jsMapGet acc.1.spawnedTypes uid := by
  unfold spawnStep
  repeat' split
  · exact ⟨rfl, rfl⟩
  · constructor
    · show jsMapGet (jsMapSet (jsMapDelete acc.1.spawnedObjects uid') uid' acc.1.nextHandle) uid = _
      rw [jsMapGet_set, if_neg hne, jsMapGet_delete, if_neg hne]
    · show jsMapGet (jsMapSet (jsMapDelete acc.1.spawnedTypes uid') uid' _) uid = _
      rw [jsMapGet_set, if_neg hne, jsMapGet_delete, if_neg hne]
  · exact ⟨rfl, rfl⟩
  · constructor
    · show jsMapGet (jsMapSet acc.1.spawnedObjects uid' acc.1.nextHandle) uid = _
      rw [jsMapGet_set, if_neg hne]
    · show jsMapGet (jsMapSet acc.1.spawnedTypes uid' _) uid = _
      rw [jsMapGet_set, if_neg hne]

theorem foldSpawn_get_notmem (md : MapObjectData) (tm : List Int) (L : List Nat)
    (acc : MgrState × List HostEvent) (uid : Nat) (hmem : uid ∉ L) :
    jsMapGet (L.foldl (spawnStep md tm) acc).1.spawnedObjects uid =
      jsMapGet acc.1.spawnedObjects uid ∧
    jsMapGet (L.foldl (spawnStep md tm) acc).1.spawnedTypes uid =
      jsMapGet acc.1.spawnedTypes uid := by
  induction L generalizing acc with
  | nil => exact ⟨rfl, rfl⟩
  | cons u rest ih =>
    simp only [List.foldl_cons]
    have hne : uid ≠ u := fun h => hmem (h ▸ List.mem_cons_self _ _)
    have hrest : uid ∉ rest := fun h => hmem (List.mem_cons_of_mem _ h)
    obtain ⟨h1, h2⟩ := ih (spawnStep md tm acc u) hrest
    obtain ⟨g1, g2⟩ := spawnStep_get_ne md tm acc u uid hne
    exact ⟨h1.trans g1, h2.trans g2⟩

/-- The condition under which the reconcile loop performs no host call for a
uid: no object record, or the object is spawned with its desired visual
variant already materialized. -/
def noCallCond (md : MapObjectData) (tm : List Int) (s : MgrState) (uid : Nat) : Prop :=
  ∀ obj, md.chunkObjects.getD uid none = some obj →
    (jsMapGet s.spawnedObjects uid).isSome ∧
    jsMapGet s.spawnedTypes uid =
      some (desiredTypeIdOf tm ((jsMapGet s.objectOwnership uid).getD (-1)) obj.typeId)

theorem spawnStep_nocall (md : MapObjectData) (tm : List Int) (s : MgrState)
    (tr : List HostEvent) (uid : Nat) (h : noCallCond md tm s uid) :
    spawnStep md tm (s, tr) uid = (s, tr) := by
  unfold spawnStep
  cases hobj : md.chunkObjects.getD uid none with
  | none => rfl
  | some obj =>
    obtain ⟨hsome, htype⟩ := h obj hobj
    cases hspawned : jsMapGet s.spawnedObjects uid with
    | none => rw [hspawned] at hsome; cases hsome
    | some handle =>
      simp only
      rw [if_neg (by rw [htype]; simp)]

theorem foldSpawn_nocall (md : MapObjectData) (tm : List Int) (L : List Nat)
    (s : MgrState) (tr : List HostEvent) (h : ∀ uid ∈ L, noCallCond md tm s uid) :
    L.foldl (spawnStep md tm) (s, tr) = (s, tr) := by
  induction L with
  | nil => rfl
  | cons u rest ih =>
    simp only [List.foldl_cons]
    rw [spawnStep_nocall md tm s tr u (h u (List.mem_cons_self _ _))]
    exact ih (fun uid hu => h uid (List.mem_cons_of_mem _ hu))

theorem spawnStep_post_self (md : MapObjectData) (tm : List Int)
    (acc : MgrState × List HostEvent) (uid : Nat) (obj : SpatialObject)
    (hobj : md.chunkObjects.getD uid none = some obj) :
    jsMapGet (spawnStep md tm acc uid).1.spawnedTypes uid =
      some (desiredTypeIdOf tm
        ((jsMapGet acc.1.objectOwnership uid).getD (-1)) obj.typeId) ∧
    (jsMapGet (spawnStep md tm acc uid).1.spawnedObjects uid).isSome := by
  unfold spawnStep
  rw [hobj]
  cases hspawned : jsMapGet acc.1.spawnedObjects uid with
  | some handle =>
    by_cases htype : jsMapGet acc.1.spawnedTypes uid =
        some (desiredTypeIdOf tm ((jsMapGet acc.1.objectOwnership uid).getD (-1)) obj.typeId)
    · simp only
      rw [if_neg (by rw [htype]; simp)]
      exact ⟨htype, by rw [hspawned]; rfl⟩
    · simp only
      rw [if_pos (by exact htype)]
      constructor
      · show jsMapGet (jsMapSet (jsMapDelete acc.1.spawnedTypes uid) uid _) uid = _
        rw [jsMapGet_set, if_pos rfl]
      · show (jsMapGet (jsMapSet (jsMapDelete acc.1.spawnedObjects uid) uid _) uid).isSome
        rw [jsMapGet_set, if_pos rfl]; rfl
  | none =>
    simp only
    constructor
    · show jsMapGet (jsMapSet acc.1.spawnedTypes uid _) uid = _
      rw [jsMapGet_set, if_pos rfl]
    · show (jsMapGet (jsMapSet acc.1.spawnedObjects uid _) uid).isSome
      rw [jsMapGet_set, if_pos rfl]; rfl

theorem foldSpawn_post (md : MapObjectData) (tm : List Int) (L : List Nat)
    (acc : MgrState × List HostEvent) :
    ∀ uid ∈ L, ∀ obj, md.chunkObjects.getD uid none = some obj →
      jsMapGet (L.foldl (spawnStep md tm) acc).1.spawnedTypes uid =
        some (desiredTypeIdOf tm
          ((jsMapGet acc.1.objectOwnership uid).getD (-1)) obj.typeId) ∧
      (jsMapGet (L.foldl (spawnStep md tm) acc).1.spawnedObjects uid).isSome := by
  induction L generalizing acc with
  | nil => intro uid h; cases h
  | cons u rest ih =>
    intro uid hmem obj hobj
    simp only [List.foldl_cons]
    by_cases hin : uid ∈ rest
    · have := ih (spawnStep md tm acc u) uid hin obj hobj
      rwa [(spawnStep_fixed md tm acc u).1] at this
    · have huid : uid = u := by
        rcases List.mem_cons.mp hmem with h | h
        · exact h
        · exact absurd h hin
      subst huid
      obtain ⟨h1, h2⟩ := foldSpawn_get_notmem md tm rest (spawnStep md tm acc uid) uid hin
      obtain ⟨g1, g2⟩ := spawnStep_post_self md tm acc uid obj hobj
      exact ⟨h2.trans g1, by rw [h1]; exact g2⟩

theorem update_components (md : MapObjectData) (tm : List Int) (s : MgrState) :
    (update md tm s).1.objectOwnership =
        applyWrites (claimWrites md s.trackedPoints) s.objectOwnership ∧
      (update md tm s).1.trackedPoints = s.trackedPoints ∧
      (update md tm s).1.desiredObjectSet =
        jsMapKeys (applyWrites (claimWrites md s.trackedPoints) s.objectOwnership) := by
  unfold update
  exact foldSpawn_fixed md tm _ _

theorem update_def (md : MapObjectData) (tm : List Int) (s : MgrState) :
    update md tm s =
      (jsMapKeys (applyWrites (claimWrites md s.trackedPoints) s.objectOwnership)).foldl
        (spawnStep md tm)
        ({ s with
            objectOwnership := applyWrites (claimWrites md s.trackedPoints) s.objectOwnership,
            desiredObjectSet :=
              jsMapKeys (applyWrites (claimWrites md s.trackedPoints) s.objectOwnership) },
         []) := rfl

theorem jsMapKeys_delete_mem {K V : Type} [DecidableEq K] (m : List (K × V)) (k' k : K)
    (h : k ∈ jsMapKeys (jsMapDelete m k')) : k ∈ jsMapKeys m := by
  rw [← jsMapGet_isSome_iff] at h ⊢
  rw [jsMapGet_delete] at h
  by_cases hk : k = k'
  · rw [if_pos hk] at h; simp at h
  · rw [if_neg hk] at h; exact h

theorem spawnStep_keys (md : MapObjectData) (tm : List Int)
    (acc : MgrState × List HostEvent) (uid' uid : Nat)
    (h : uid ∈ jsMapKeys (spawnStep md tm acc uid').1.spawnedObjects) :
    uid ∈ jsMapKeys acc.1.spawnedObjects ∨ uid = uid' := by
  unfold spawnStep at h
  split at h
  · exact Or.inl h
  · split at h
    · split at h
      · rw [jsMapKeys_set_mem] at h
        rcases h with h | h
        · exact Or.inl (jsMapKeys_delete_mem _ _ _ h)
        · exact Or.inr h
      · exact Or.inl h
    · rw [jsMapKeys_set_mem] at h
      rcases h with h | h
      · exact Or.inl h
      · exact Or.inr h

theorem foldSpawn_keys (md : MapObjectData) (tm : List Int) (L : List Nat)
    (acc : MgrState × List HostEvent) (uid : Nat)
    (h : uid ∈ jsMapKeys ((L.foldl (spawnStep md tm) acc).1.spawnedObjects)) :
    uid ∈ jsMapKeys acc.1.spawnedObjects ∨ uid ∈ L := by
  induction L generalizing acc with
  | nil => exact Or.inl h
  | cons u rest ih =>
    simp only [List.foldl_cons] at h
    rcases ih (spawnStep md tm acc u) h with h2 | h2
    · rcases spawnStep_keys md tm acc u uid h2 with h3 | h3
      · exact Or.inl h3
      · exact Or.inr (h3 ▸ List.mem_cons_self _ _)
    · exact Or.inr (List.mem_cons_of_mem _ h2)

theorem reachable_inv (md : MapObjectData) (tm : List Int) (s : MgrState)
    (h : Reachable md tm s) :
    (∀ uid, uid ∈ jsMapKeys s.spawnedObjects → uid ∈ jsMapKeys s.objectOwnership) ∧
    (jsMapKeys s.objectOwnership).Nodup := by
  induction h with
  | init => exact ⟨fun uid h => by simp [initMgr, jsMapKeys] at h, by simp [initMgr, jsMapKeys]⟩
  | add s key pos r t _ ih => exact ih
  | remove s key _ ih => exact ih
  | step s _ ih =>
    obtain ⟨hsub, hnodup⟩ := ih
    obtain ⟨how, htp, hdes⟩ := update_components md tm s
    constructor
    · intro uid hmem
      rw [how]
      rw [update_def md tm s] at hmem
      rcases foldSpawn_keys md tm _ _ uid hmem with h2 | h2
      · exact (applyWrites_keys_mem _ _ uid).mpr (Or.inl (hsub uid h2))
      · exact h2
    · rw [how]
      exact applyWrites_keys_nodup _ _ hnodup

theorem update_trace_nocall (md : MapObjectData) (tm : List Int) (s : MgrState)
    (h : ∀ uid ∈ jsMapKeys (applyWrites (claimWrites md s.trackedPoints) s.objectOwnership),
      noCallCond md tm
        { s with
            objectOwnership := applyWrites (claimWrites md s.trackedPoints) s.objectOwnership,
            desiredObjectSet :=
              jsMapKeys (applyWrites (claimWrites md s.trackedPoints) s.objectOwnership) }
        uid) :
    (update md tm s).2 = [] := by
  rw [update_def]
  rw [foldSpawn_nocall md tm _ _ _ h]

/-- C7: running the reconcile step (`update`) twice in a row without touching
the tracked points or the ownership map between the calls performs zero host
materialize or dematerialize calls during the second run, from any manager
state whatsoever. -/
theorem claim_C7 (md : MapObjectData) (tm : List Int) (s : MgrState) :
    (update md tm (update md tm s).1).2 = [] := by
  obtain ⟨how1, htp1, hdes1⟩ := update_components md tm s
  apply update_trace_nocall
  intro uid hmem
  rw [htp1, how1] at hmem
  intro obj hobj
  have hidem := applyWrites_get_idem (claimWrites md s.trackedPoints) s.objectOwnership uid
  have hsome2 : (jsMapGet (applyWrites (claimWrites md s.trackedPoints)
      (applyWrites (claimWrites md s.trackedPoints) s.objectOwnership)) uid).isSome :=
    (jsMapGet_isSome_iff _ uid).mpr hmem
  have hsome1 : (jsMapGet (applyWrites (claimWrites md s.trackedPoints)
      s.objectOwnership) uid).isSome := by
    rw [← hidem]; exact hsome2
  have hmem1 : uid ∈ jsMapKeys (applyWrites (claimWrites md s.trackedPoints)
      s.objectOwnership) := (jsMapGet_isSome_iff _ uid).mp hsome1
  have hpost := foldSpawn_post md tm
    (jsMapKeys (applyWrites (claimWrites md s.trackedPoints) s.objectOwnership))
    ({ s with
        objectOwnership := applyWrites (claimWrites md s.trackedPoints) s.objectOwnership,
        desiredObjectSet :=
          jsMapKeys (applyWrites (claimWrites md s.trackedPoints) s.objectOwnership) }, [])
    uid hmem1 obj hobj
  rw [← update_def md tm s] at hpost
  constructor
  · exact hpost.2
  · show jsMapGet (update md tm s).1.spawnedTypes uid =
      some (desiredTypeIdOf tm
        ((jsMapGet (applyWrites (claimWrites md (update md tm s).1.trackedPoints)
          (update md tm s).1.objectOwnership) uid).getD (-1)) obj.typeId)
    rw [htp1, how1, hidem]
    exact hpost.1

/-- C1: after every reconcile step from a reachable manager state, every uid
present in the spawned set but absent from the desired materialization set
has been dematerialized and removed — the post-state spawned set is contained
in the desired set, and any uid spawned before the tick but undesired after
it was unspawned and dropped (ownership only ever grows, so this set is in
fact empty and the guarantee holds vacuously) — and an object whose desired
visual variant equals its already-materialized type receives no host call
during the tick. -/
theorem claim_C1 (md : MapObjectData) (tm : List Int) (s : MgrState)
    (hreach : Reachable md tm s) :
    (∀ uid, uid ∈ jsMapKeys (update md tm s).1.spawnedObjects →
        uid ∈ (update md tm s).1.desiredObjectSet) ∧
    (∀ uid, uid ∈ jsMapKeys s.spawnedObjects →
        uid ∉ (update md tm s).1.desiredObjectSet →
        (∃ hd, HostEvent.unspawn uid hd ∈ (update md tm s).2) ∧
          uid ∉ jsMapKeys (update md tm s).1.spawnedObjects) ∧
    (∀ uid obj handleV typeV, md.chunkObjects.getD uid none = some obj →
        jsMapGet s.spawnedObjects uid = some handleV →
        jsMapGet s.spawnedTypes uid = some typeV →
        typeV = desiredTypeIdOf tm
          ((jsMapGet (update md tm s).1.objectOwnership uid).getD (-1)) obj.typeId →
        ∀ ev ∈ (update md tm s).2, ev.uidOf ≠ uid) := by
  obtain ⟨hsub, hnodup⟩ := reachable_inv md tm s hreach
  obtain ⟨how, htp, hdes⟩ := update_components md tm s
  refine ⟨?_, ?_, ?_⟩
  · intro uid hmem
    rw [hdes]
    rw [update_def md tm s] at hmem
    rcases foldSpawn_keys md tm _ _ uid hmem with h2 | h2
    · exact (applyWrites_keys_mem _ _ uid).mpr (Or.inl (hsub uid h2))
    · exact h2
  · intro uid hmem hnot
    have hin : uid ∈ (update md tm s).1.desiredObjectSet := by
      rw [hdes]
      exact (applyWrites_keys_mem _ _ uid).mpr (Or.inl (hsub uid hmem))
    exact False.elim (hnot hin)
  · intro uid obj handleV typeV hobj hsp hty hdes2 ev hev
    have hnodup1 : (jsMapKeys (applyWrites (claimWrites md s.trackedPoints)
        s.objectOwnership)).Nodup := applyWrites_keys_nodup _ _ hnodup
    rw [update_def md tm s] at hev
    by_cases hmemL : uid ∈ jsMapKeys (applyWrites (claimWrites md s.trackedPoints)
        s.objectOwnership)
    · obtain ⟨La, Lb, heq⟩ := List.append_of_mem hmemL
      rw [heq] at hnodup1
      rw [List.nodup_append] at hnodup1
      obtain ⟨hndA, hndB, hdisj⟩ := hnodup1
      have huidA : uid ∉ La := fun hx => hdisj hx (List.mem_cons_self _ _)
      have huidB : uid ∉ Lb := (List.nodup_cons.mp hndB).1
      rw [heq, List.foldl_append, List.foldl_cons] at hev
      have hfixA := foldSpawn_fixed md tm La
        ({ s with
            objectOwnership := applyWrites (claimWrites md s.trackedPoints) s.objectOwnership,
            desiredObjectSet := La ++ uid :: Lb }, [])
      have hgetA := foldSpawn_get_notmem md tm La
        ({ s with
            objectOwnership := applyWrites (claimWrites md s.trackedPoints) s.objectOwnership,
            desiredObjectSet := La ++ uid :: Lb }, [])
        uid huidA
      have hnocall : spawnStep md tm
          (La.foldl (spawnStep md tm)
            ({ s with
                objectOwnership := applyWrites (claimWrites md s.trackedPoints) s.objectOwnership,
                desiredObjectSet := La ++ uid :: Lb }, [])) uid =
          La.foldl (spawnStep md tm)
            ({ s with
                objectOwnership := applyWrites (claimWrites md s.trackedPoints) s.objectOwnership,
                desiredObjectSet := La ++ uid :: Lb }, []) := by
        apply spawnStep_nocall
        intro obj2 hobj2
        rw [hobj] at hobj2
        cases hobj2
        constructor
        · rw [hgetA.1]
          show (jsMapGet s.spawnedObjects uid).isSome
          rw [hsp]; rfl
        · rw [hgetA.2, hfixA.1]
          show jsMapGet s.spawnedTypes uid =
            some (desiredTypeIdOf tm
              ((jsMapGet (applyWrites (claimWrites md s.trackedPoints)
                s.objectOwnership) uid).getD (-1)) obj.typeId)
          rw [hty, hdes2, how]
      rw [hnocall] at hev
      obtain ⟨evsB, hevsB, husB⟩ := foldSpawn_trace md tm Lb
        (La.foldl (spawnStep md tm)
          ({ s with
              objectOwnership := applyWrites (claimWrites md s.trackedPoints) s.objectOwnership,
              desiredObjectSet := La ++ uid :: Lb }, []))
      obtain ⟨evsA, hevsA, husA⟩ := foldSpawn_trace md tm La
        ({ s with
            objectOwnership := applyWrites (claimWrites md s.trackedPoints) s.objectOwnership,
            desiredObjectSet := La ++ uid :: Lb }, [])
      rw [hevsB, hevsA] at hev
      simp only [List.nil_append] at hev
      intro hx
      rcases List.mem_append.mp hev with hm | hm
      · exact huidA (hx ▸ husA ev hm)
      · exact huidB (hx ▸ husB ev hm)
    · obtain ⟨evs, hevs, hus⟩ := foldSpawn_trace md tm
        (jsMapKeys (applyWrites (claimWrites md s.trackedPoints) s.objectOwnership))
        ({ s with
            objectOwnership := applyWrites (claimWrites md s.trackedPoints) s.objectOwnership,
            desiredObjectSet :=
              jsMapKeys (applyWrites (claimWrites md s.trackedPoints) s.objectOwnership) }, [])
      rw [hevs] at hev
      simp only [List.nil_append] at hev
      intro hx
      exact hmemL (hx ▸ hus ev hev)

theorem mem_pointWrites_iff (md : MapObjectData) (tp : TrackedPoint) (w : Nat × Int) :
    w ∈ pointWrites md tp ↔
      ∃ c ∈ cellsOf md.chunkSize tp, ∃ span, jsMapGet md.chunkSegments c = some span ∧
        ∃ i ∈ List.range' span.start (span.stop - span.start), ∃ obj,
          md.chunkObjects.getD i none = some obj ∧
          sqDist obj.position tp.point ≤ tp.radius * tp.radius ∧
          w = (obj.uid, tp.team) := by
  unfold pointWrites
  rw [List.mem_flatMap]
  constructor
  · rintro ⟨c, hc, hw⟩
    refine ⟨c, hc, ?_⟩
    cases hseg : jsMapGet md.chunkSegments c with
    | none => rw [hseg] at hw; cases hw
    | some span =>
      rw [hseg] at hw
      refine ⟨span, rfl, ?_⟩
      unfold segmentWrites at hw
      rw [List.mem_filterMap] at hw
      obtain ⟨i, hi, hwi⟩ := hw
      refine ⟨i, hi, ?_⟩
      cases hobj : md.chunkObjects.getD i none with
      | none => rw [hobj] at hwi; cases hwi
      | some obj =>
        rw [hobj] at hwi
        simp only at hwi
        by_cases hd : sqDist obj.position tp.point ≤ tp.radius * tp.radius
        · rw [if_pos hd] at hwi
          cases hwi
          exact ⟨obj, rfl, hd, rfl⟩
        · rw [if_neg hd] at hwi
          cases hwi
  · rintro ⟨c, hc, span, hseg, i, hi, obj, hobj, hd, hweq⟩
    refine ⟨c, hc, ?_⟩
    rw [hseg]
    unfold segmentWrites
    rw [List.mem_filterMap]
    refine ⟨i, hi, ?_⟩
    rw [hobj]
    simp only
    rw [if_pos hd, hweq]

theorem pointWrites_team (md : MapObjectData) (tp : TrackedPoint) :
    ∀ w ∈ pointWrites md tp, w.2 = tp.team := by
  intro w hw
  obtain ⟨c, hc, span, hseg, i, hi, obj, hobj, hd, hweq⟩ :=
    (mem_pointWrites_iff md tp w).mp hw
  rw [hweq]

theorem lastWrite_append {K V : Type} [DecidableEq K] (a b : List (K × V)) (k : K) :
    lastWrite (a ++ b) k =
      match lastWrite b k with
      | some v => some v
      | none => lastWrite a k := by
  unfold lastWrite
  rw [List.foldl_append]
  exact lastWrite_foldl_init b k _

/-- C5, amended: for a manager holding a single tracked point and an empty
ownership map, after one reconcile step an object uid is captured exactly
when the radius query reaches it: there is a grid cell inside the cube of
half-width `⌈radius / cellSize⌉` around the point whose chunk segment
contains an object with that uid whose squared Euclidean distance to the
point is at most radius squared (the boundary case of equality included).
Objects whose chunk lies outside that cube are not captured even when their
squared distance is within radius squared. -/
theorem claim_C5 (md : MapObjectData) (tm : List Int) (k : String)
    (tp : TrackedPoint) (s : MgrState) (uid : Nat)
    (hp : s.trackedPoints = [(k, tp)]) (ho : s.objectOwnership = []) :
    (jsMapGet (update md tm s).1.objectOwnership uid).isSome ↔
      ∃ c ∈ cellsOf md.chunkSize tp, ∃ span, jsMapGet md.chunkSegments c = some span ∧
        ∃ i ∈ List.range' span.start (span.stop - span.start), ∃ obj,
          md.chunkObjects.getD i none = some obj ∧ obj.uid = uid ∧
          sqDist obj.position tp.point ≤ tp.radius * tp.radius := by
  obtain ⟨how, _, _⟩ := update_components md tm s
  rw [how, hp, ho]
  have hcw : claimWrites md [(k, tp)] = pointWrites md tp := by
    unfold claimWrites
    simp
  rw [hcw, jsMapGet_applyWrites]
  cases hlw : lastWrite (pointWrites md tp) uid with
  | none =>
    have hnot : uid ∉ (pointWrites md tp).map Prod.fst := by
      rw [← lastWrite_isSome_iff, hlw]
      simp
    apply iff_of_false
    · simp [jsMapGet_nil]
    · rintro ⟨c, hc, span, hseg, i, hi, obj, hobj, huid, hd⟩
      apply hnot
      apply List.mem_map.mpr
      refine ⟨(obj.uid, tp.team), ?_, huid⟩
      exact (mem_pointWrites_iff md tp _).mpr ⟨c, hc, span, hseg, i, hi, obj, hobj, hd, rfl⟩
  | some v =>
    apply iff_of_true
    · simp
    · obtain ⟨c, hc, span, hseg, i, hi, obj, hobj, hd, hweq⟩ :=
        (mem_pointWrites_iff md tp _).mp (lastWrite_mem _ _ _ hlw)
      have huid : obj.uid = uid := (congrArg Prod.fst hweq).symm
      exact ⟨c, hc, span, hseg, i, hi, obj, hobj, huid, hd⟩

/-- C6, amended: under the sticky policy, when the second tracked point in
iteration order captures the object — its radius query reaches the object
and the object is within its radius, i.e. the corresponding ownership write
is among that point's writes — the final owner after the tick is the second
point's team, regardless of what the first point or the prior ownership map
did (last writer over tracked-point iteration order wins).  If only the
first point reaches the object, its team keeps ownership even when the
object lies within the second point's radius. -/
theorem claim_C6 (md : MapObjectData) (tm : List Int) (kA kB : String)
    (A B : TrackedPoint) (s : MgrState) (uid : Nat)
    (hpts : s.trackedPoints = [(kA, A), (kB, B)])
    (hteams : A.team ≠ B.team)
    (hB : (uid, B.team) ∈ pointWrites md B) :
    jsMapGet (update md tm s).1.objectOwnership uid = some B.team := by
  obtain ⟨how, _, _⟩ := update_components md tm s
  rw [how, hpts]
  have hcw : claimWrites md [(kA, A), (kB, B)] = pointWrites md A ++ pointWrites md B := by
    unfold claimWrites
    simp
  rw [hcw, jsMapGet_applyWrites, lastWrite_append]
  have hmemB : uid ∈ (pointWrites md B).map Prod.fst :=
    List.mem_map.mpr ⟨(uid, B.team), hB, rfl⟩
  have hsome : (lastWrite (pointWrites md B) uid).isSome :=
    (lastWrite_isSome_iff _ _).mpr hmemB
  cases hlw : lastWrite (pointWrites md B) uid with
  | none => rw [hlw] at hsome; cases hsome
  | some v =>
    have hv : v = B.team := pointWrites_team md B _ (lastWrite_mem _ _ _ hlw)
    rw [hv]

def objW1 : SpatialObject := ⟨0, 5, ⟨0, 0, 0⟩, ⟨1, 1, 1⟩, ⟨0, 0, 0⟩⟩

def mdW1 : MapObjectData :=
  mkMapObjectData [some objW1] [((0, 0, 0), ⟨0, 1⟩)] 64 [(0, (0, 0, 0))]

def tmW1 : List Int := [10, 20]

def sW1 : MgrState :=
  (update mdW1 tmW1 (addOrUpdateTrackedPoint initMgr "p" ⟨0, 0, 0⟩ 15 0)).1

theorem claim_C1_witness :
    (∀ uid, uid ∈ jsMapKeys (update mdW1 tmW1 sW1).1.spawnedObjects →
        uid ∈ (update mdW1 tmW1 sW1).1.desiredObjectSet) ∧
    (∀ uid, uid ∈ jsMapKeys sW1.spawnedObjects →
        uid ∉ (update mdW1 tmW1 sW1).1.desiredObjectSet →
        (∃ hd, HostEvent.unspawn uid hd ∈ (update mdW1 tmW1 sW1).2) ∧
          uid ∉ jsMapKeys (update mdW1 tmW1 sW1).1.spawnedObjects) ∧
    (∀ uid obj handleV typeV, mdW1.chunkObjects.getD uid none = some obj →
        jsMapGet sW1.spawnedObjects uid = some handleV →
        jsMapGet sW1.spawnedTypes uid = some typeV →
        typeV = desiredTypeIdOf tmW1
          ((jsMapGet (update mdW1 tmW1 sW1).1.objectOwnership uid).getD (-1)) obj.typeId →
        ∀ ev ∈ (update mdW1 tmW1 sW1).2, ev.uidOf ≠ uid) :=
  claim_C1 mdW1 tmW1 sW1
    (Reachable.step _ (Reachable.add _ _ _ _ _ Reachable.init))

def objC5 : SpatialObject := ⟨0, 5, ⟨-64, 0, 0⟩, ⟨1, 1, 1⟩, ⟨0, 0, 0⟩⟩

def mdC5 : MapObjectData :=
  mkMapObjectData [some objC5] [((-2, 0, 0), ⟨0, 1⟩)] 64 [(0, (-2, 0, 0))]

def tpC5 : TrackedPoint := ⟨⟨0, 0, 0⟩, 64, 1⟩

def sC5 : MgrState := { initMgr with trackedPoints := [("p", tpC5)] }

/-- C5 counterexample: an object at world position (-64, 0, 0), stored in
chunk (-2, 0, 0) at the upper face of its cell, sits at squared distance
exactly radius squared (64² = 4096) from a tracked point at the origin with
radius 64 — yet after a reconcile tick it is not captured, because the
search cube around the point covers only cells -1..1 and never visits chunk
(-2, 0, 0). -/
theorem claim_C5_counterexample :
    sqDist objC5.position tpC5.point = tpC5.radius * tpC5.radius ∧
      jsMapGet (update mdC5 [] sC5).1.objectOwnership 0 = none := by
  constructor
  · norm_num [sqDist, objC5, tpC5]
  · exact of_decide_eq_true (by with_unfolding_all rfl)

def objW5 : SpatialObject := ⟨0, 5, ⟨10, 0, 0⟩, ⟨1, 1, 1⟩, ⟨0, 0, 0⟩⟩

def mdW5 : MapObjectData :=
  mkMapObjectData [some objW5] [((0, 0, 0), ⟨0, 1⟩)] 64 [(0, (0, 0, 0))]

def tpW5 : TrackedPoint := ⟨⟨0, 0, 0⟩, 15, 0⟩

def sW5 : MgrState := { initMgr with trackedPoints := [("p", tpW5)] }

theorem claim_C5_witness :
    (jsMapGet (update mdW5 [] sW5).1.objectOwnership 0).isSome ↔
      ∃ c ∈ cellsOf mdW5.chunkSize tpW5, ∃ span,
        jsMapGet mdW5.chunkSegments c = some span ∧
        ∃ i ∈ List.range' span.start (span.stop - span.start), ∃ obj,
          mdW5.chunkObjects.getD i none = some obj ∧ obj.uid = 0 ∧
          sqDist obj.position tpW5.point ≤ tpW5.radius * tpW5.radius :=
  claim_C5 mdW5 [] "p" tpW5 sW5 0 rfl rfl

def objC6 : SpatialObject := ⟨0, 5, ⟨-64, 0, 0⟩, ⟨1, 1, 1⟩, ⟨0, 0, 0⟩⟩

def mdC6 : MapObjectData :=
  mkMapObjectData [some objC6] [((-2, 0, 0), ⟨0, 1⟩)] 64 [(0, (-2, 0, 0))]

def tpA6 : TrackedPoint := ⟨⟨-80, 0, 0⟩, 64, 0⟩

def tpB6 : TrackedPoint := ⟨⟨0, 0, 0⟩, 64, 1⟩

def sC6 : MgrState := { initMgr with trackedPoints := [("a", tpA6), ("b", tpB6)] }

/-- C6 counterexample: two tracked points of different teams (team 0 first,
team 1 second in iteration order) are both within radius 64 of the same
object, yet after the tick the object is owned by the FIRST team, because
the second point at the origin never visits the chunk (-2, 0, 0) holding the
object: its search cube covers only cells -1..1.  The claim that the object
always ends owned by the later-iterated team is false. -/
theorem claim_C6_counterexample :
    sqDist objC6.position tpA6.point ≤ tpA6.radius * tpA6.radius ∧
      sqDist objC6.position tpB6.point ≤ tpB6.radius * tpB6.radius ∧
      tpA6.team ≠ tpB6.team ∧
      jsMapGet (update mdC6 [] sC6).1.objectOwnership 0 = some tpA6.team ∧
      jsMapGet (update mdC6 [] sC6).1.objectOwnership 0 ≠ some tpB6.team :=
  of_decide_eq_true (by with_unfolding_all rfl)

def objW6 : SpatialObject := ⟨0, 5, ⟨0, 0, 0⟩, ⟨1, 1, 1⟩, ⟨0, 0, 0⟩⟩

def mdW6 : MapObjectData :=
  mkMapObjectData [some objW6] [((0, 0, 0), ⟨0, 1⟩)] 64 [(0, (0, 0, 0))]

def tpA7 : TrackedPoint := ⟨⟨10, 0, 0⟩, 15, 0⟩

def tpB7 : TrackedPoint := ⟨⟨-10, 0, 0⟩, 15, 1⟩

def sW6 : MgrState := { initMgr with trackedPoints := [("a", tpA7), ("b", tpB7)] }

theorem claim_C6_witness :
    jsMapGet (update mdW6 [] sW6).1.objectOwnership 0 = some tpB7.team :=
  claim_C6 mdW6 [] "a" "b" tpA7 tpB7 sW6 0 rfl (by decide)
    (of_decide_eq_true (by with_unfolding_all rfl))
/-- Inversion of `Except` bind: a successful bind splits into a successful
first stage and a successful continuation. -/
theorem bindOk {A B : Type} {e : Except JsError A} {f : A → Except JsError B} {b : B}
    (h : (e >>= f) = .ok b) : ∃ a, e = .ok a ∧ f a = .ok b := by
  cases e with
  | error err => exact absurd h (by simp [Bind.bind, Except.bind])
  | ok a => exact ⟨a, rfl, by simpa [Bind.bind, Except.bind] using h⟩

theorem jsArraySet_getD_gt {A : Type} (a : List (Option A)) (i j : Nat) (v : A)
    (h : i < j) : (jsArraySet a i v).getD j none = a.getD j none := by
  unfold jsArraySet
  split
  next hlen =>
    rw [List.getD_eq_getElem?_getD, List.getD_eq_getElem?_getD,
      List.getElem?_set_ne (by omega)]
  next hlen =>
    rw [List.getD_eq_getElem?_getD, List.getD_eq_getElem?_getD,
      List.getElem?_eq_none
        (by simp only [List.length_append, List.length_replicate,
              List.length_cons, List.length_nil]; omega),
      List.getElem?_eq_none (by omega)]

theorem jsArraySet_length {A : Type} (a : List (Option A)) (i : Nat) (v : A)
    (h : i < a.length) : (jsArraySet a i v).length = a.length := by
  unfold jsArraySet
  rw [if_pos h, List.length_set]

theorem getD_replicate_none {A : Type} (n i : Nat) :
    (List.replicate n (none : Option A)).getD i none = none := by
  rw [List.getD_eq_getElem?_getD, List.getElem?_replicate]
  split <;> rfl

/-- The invariant tying the preallocated object array (constructor lines
399-414) to the running uid counter: every slot at or past the counter is
still a hole, and while the counter has not overrun the header-declared
total, the array keeps its preallocated length. -/
def parserInv (p : ParserState) : Prop :=
  (∀ i, p.currentObjectCount ≤ i → p.chunkObjects.getD i none = none) ∧
  (p.currentObjectCount ≤ p.declaredObjectCount →
    p.chunkObjects.length = p.declaredObjectCount)

theorem parserInv_mono (p q : ParserState)
    (hobj : q.chunkObjects = p.chunkObjects)
    (hcnt : p.currentObjectCount ≤ q.currentObjectCount)
    (hdecl : q.declaredObjectCount = p.declaredObjectCount)
    (hinv : parserInv p) : parserInv q := by
  obtain ⟨h1, h2⟩ := hinv
  constructor
  · intro i hi
    rw [hobj]
    exact h1 i (le_trans hcnt hi)
  · intro hle
    rw [hobj, hdecl]
    rw [hdecl] at hle
    exact h2 (by omega)

theorem processObjects_inv (count : Nat) (p : ParserState) (origin : Vec3)
    (key : Int × Int × Int) (span : ObjectSpan) (q : ParserState) (span2 : ObjectSpan)
    (hrun : processObjects count p origin key span = .ok (q, span2))
    (hinv : parserInv p) : parserInv q := by
  induction count generalizing p span with
  | zero =>
    unfold processObjects at hrun
    cases hrun
    exact hinv
  | succ c ih =>
    unfold processObjects at hrun
    obtain ⟨⟨rawX, st1⟩, _, hrun⟩ := bindOk hrun
    obtain ⟨⟨rawY, st2⟩, _, hrun⟩ := bindOk hrun
    obtain ⟨⟨rawZ, st3⟩, _, hrun⟩ := bindOk hrun
    obtain ⟨⟨scaleIdx, st4⟩, _, hrun⟩ := bindOk hrun
    obtain ⟨⟨rotIdx, st5⟩, _, hrun⟩ := bindOk hrun
    obtain ⟨⟨typeIdx, st6⟩, _, hrun⟩ := bindOk hrun
    obtain ⟨⟨scaleOpt, st7⟩, _, hrun⟩ := bindOk hrun
    obtain ⟨⟨rotOpt, st8⟩, _, hrun⟩ := bindOk hrun
    simp only [] at hrun
    split at hrun
    · exact ih _ _ hrun (parserInv_mono p _ rfl (Nat.le_refl _) rfl hinv)
    · split at hrun
      · refine ih _ _ hrun ⟨fun i hi => ?_, fun hle => ?_⟩
        · have hi2 : p.currentObjectCount + 1 ≤ i := hi
          exact (jsArraySet_getD_gt p.chunkObjects p.currentObjectCount i _
            (by omega)).trans (hinv.1 i (by omega))
        · have hle2 : p.currentObjectCount + 1 ≤ p.declaredObjectCount := hle
          have hlen := hinv.2 (by omega)
          exact (jsArraySet_length p.chunkObjects p.currentObjectCount _
            (by rw [hlen]; omega)).trans hlen
      · exact ih _ _ hrun (parserInv_mono p _ rfl (Nat.le_succ _) rfl hinv)

theorem processChunk_inv (p : ParserState) (info : ChunkInfo) (q : ParserState)
    (hrun : processChunk p info = .ok q) (hinv : parserInv p) : parserInv q := by
  unfold processChunk at hrun
  split at hrun
  · cases hrun
  · obtain ⟨⟨objCount, st⟩, _, hrun⟩ := bindOk hrun
    simp only [] at hrun
    obtain ⟨⟨p2, span2⟩, hpo, hrun⟩ := bindOk hrun
    cases hrun
    exact parserInv_mono p2 _ rfl (Nat.le_refl _) rfl
      (processObjects_inv _ _ _ _ _ _ _ hpo
        (parserInv_mono p _ rfl (Nat.le_refl _) rfl hinv))

theorem chunkLoop_inv (n i : Nat) (p q : ParserState) (hrun : chunkLoop n i p = .ok q)
    (hinv : parserInv p) : parserInv q := by
  induction n generalizing i p with
  | zero =>
    unfold chunkLoop at hrun
    cases hrun
    exact hinv
  | succ m ih =>
    unfold chunkLoop at hrun
    split at hrun
    · cases hrun
      exact hinv
    · split at hrun
      · cases hrun
      · next p2 hp =>
        exact ih _ _ hrun (processChunk_inv _ _ _ hp hinv)

theorem processNextChunks_inv (p : ParserState) (done : Bool) (q : ParserState)
    (hrun : processNextChunks p = .ok (done, q)) (hinv : parserInv p) : parserInv q := by
  unfold processNextChunks at hrun
  split at hrun
  · cases hrun
    exact hinv
  · simp only [] at hrun
    split at hrun
    · cases hrun
    · next p2 hp =>
      have h2 := chunkLoop_inv _ _ _ _ hp hinv
      split at hrun
      · cases hrun
        exact parserInv_mono p2 _ rfl (Nat.le_refl _) rfl h2
      · cases hrun
        exact parserInv_mono p2 _ rfl (Nat.le_refl _) rfl h2

theorem runChunks_inv (fuel : Nat) (p q : ParserState) (hrun : runChunks fuel p = .ok q)
    (hinv : parserInv p) : parserInv q := by
  induction fuel generalizing p with
  | zero =>
    unfold runChunks at hrun
    cases hrun
  | succ f ih =>
    unfold runChunks at hrun
    split at hrun
    · cases hrun
    · next p2 hp =>
      cases hrun
      exact processNextChunks_inv _ _ _ hp hinv
    · next p2 hp =>
      exact ih _ hrun (processNextChunks_inv _ _ _ hp hinv)

theorem mkParser_inv (strings : List (List Nat)) (mapEnums : List (List Nat × TypeTable))
    (commonTable : TypeTable) (p : ParserState)
    (hrun : mkParser strings mapEnums commonTable = .ok p) : parserInv p := by
  unfold mkParser at hrun
  obtain ⟨⟨version, st⟩, _, hrun⟩ := bindOk hrun
  simp only [] at hrun
  split at hrun
  · cases hrun
  · obtain ⟨⟨chunkSize, st2⟩, _, hrun⟩ := bindOk hrun
    obtain ⟨⟨mapType, st3⟩, _, hrun⟩ := bindOk hrun
    simp only [] at hrun
    obtain ⟨⟨objectCount, st4⟩, _, hrun⟩ := bindOk hrun
    obtain ⟨⟨chunkCount, st5⟩, _, hrun⟩ := bindOk hrun
    obtain ⟨⟨minB, st6⟩, _, hrun⟩ := bindOk hrun
    obtain ⟨⟨maxB, st7⟩, _, hrun⟩ := bindOk hrun
    obtain ⟨⟨spc, st8⟩, _, hrun⟩ := bindOk hrun
    obtain ⟨⟨rpc, st9⟩, _, hrun⟩ := bindOk hrun
    obtain ⟨⟨tpc, st10⟩, _, hrun⟩ := bindOk hrun
    cases hrun
    exact ⟨fun i _ => getD_replicate_none _ _, fun _ => by simp⟩

theorem parseDataPalette_inv (p q : ParserState) (hrun : parseDataPalette p = .ok q)
    (hinv : parserInv p) : parserInv q := by
  unfold parseDataPalette at hrun
  split at hrun
  · cases hrun
    exact hinv
  · obtain ⟨⟨scales, st⟩, _, hrun⟩ := bindOk hrun
    obtain ⟨⟨rots, st2⟩, _, hrun⟩ := bindOk hrun
    obtain ⟨⟨types, st3⟩, _, hrun⟩ := bindOk hrun
    obtain ⟨⟨infos, st4⟩, _, hrun⟩ := bindOk hrun
    cases hrun
    exact parserInv_mono p _ rfl (Nat.le_refl _) rfl hinv

theorem mkMapObjectData_objectCount (co : List (Option SpatialObject))
    (cs : List ((Int × Int × Int) × ObjectSpan)) (csz : ℚ)
    (utc : List (Nat × (Int × Int × Int))) :
    (mkMapObjectData co cs csz utc).objectCount = co.length := rfl

/-- C10: when a full parse succeeds with at least one object record skipped
over an unresolvable type name (the `accepted + skipped = declared`
hypothesis pins the stream to the well-formed shape where every declared
record was either accepted or warn-skipped), the finished `MapObjectData`
still reports `objectCount` equal to the header-declared total (the
preallocated array length), not the number of accepted objects, and every
array slot at or past the accepted-object count holds no object. -/
theorem claim_C10 (strings : List (List Nat)) (mapEnums : List (List Nat × TypeTable))
    (commonTable : TypeTable) (fuel : Nat) (p : ParserState) (md : MapObjectData)
    (hrun : runFullParse strings mapEnums commonTable fuel = .ok (p, md))
    (hskip : 1 ≤ p.warnings.length)
    (htotal : p.currentObjectCount + p.warnings.length = p.declaredObjectCount) :
    md.objectCount = p.declaredObjectCount ∧
    md.objectCount ≠ p.currentObjectCount ∧
    ∀ i, p.currentObjectCount ≤ i → md.chunkObjects.getD i none = none := by
  unfold runFullParse at hrun
  split at hrun
  · cases hrun
  · next p0 hmk =>
    split at hrun
    · cases hrun
    · next p1 hpal =>
      split at hrun
      · cases hrun
      · next p2 hrc =>
        split at hrun
        · cases hrun
        · next md0 hres =>
          cases hrun
          have hinv := runChunks_inv _ _ _ hrc
            (parseDataPalette_inv _ _ hpal (mkParser_inv _ _ _ _ hmk))
          unfold getResults at hres
          split at hres
          · cases hres
          · cases hres
            refine ⟨?_, ?_, ?_⟩
            · rw [mkMapObjectData_objectCount]
              exact hinv.2 (by omega)
            · rw [mkMapObjectData_objectCount, hinv.2 (by omega)]
              omega
            · intro i hi
              exact hinv.1 i hi
/-- A 111-byte test stream: version 1, chunk size 64, empty map-type string,
declared object count 2, one chunk at byte offset 89 holding two records;
the first resolves through the common table, the second carries the
unresolvable type name "Bad". -/
def c10bytes : List Nat :=
  [1, 0,
   0, 0, 128, 66,
   0,
   2, 0, 0, 0,
   1, 0] ++
  List.replicate 24 0 ++
  [1, 0, 1, 0, 2, 0] ++
  List.replicate 24 0 ++
  [3, 70, 111, 111,
   3, 66, 97, 100,
   0, 0, 0, 0, 0, 0, 89, 0, 0, 0, 22, 0, 0, 0,
   2, 0,
   0, 0, 0, 0, 0, 0, 0, 0, 0, 0,
   0, 0, 0, 0, 0, 0, 0, 0, 1, 0]

/-- Cut an encoded text into transport strings of at most `STR_CHUNK_SIZE`
characters, the way the exporter splits the payload. -/
def splitBlocks (fuel : Nat) (l : List Nat) : List (List Nat) :=
  match fuel with
  | 0 => []
  | f + 1 =>
    if l.length = 0 then []
    else l.take STR_CHUNK_SIZE :: splitBlocks f (l.drop STR_CHUNK_SIZE)

def c10common : TypeTable := [([70, 111, 111], 7)]

def c10strings : List (List Nat) := splitBlocks 4 (encodeCustomBase16 c10bytes)

def c10run : Except JsError (ParserState × MapObjectData) :=
  runFullParse c10strings [] c10common 4

def c10fallback : ParserState :=
  { reader := initialReader []
    chunkInfos := []
    scalePalette := []
    rotationPalette := []
    typePalette := []
    chunkObjects := []
    chunkMap := []
    uidToChunk := []
    chunkSize := 0
    mapSpecificEnum := none
    commonEnum := []
    headerParsed := false
    currentChunkIndex := 0
    currentObjectCount := 0
    isComplete := false
    chunksMinBounds := ⟨0, 0, 0⟩
    chunksMaxBounds := ⟨0, 0, 0⟩
    declaredObjectCount := 0
    scalePaletteCount := 0
    rotationPaletteCount := 0
    typePaletteCount := 0
    chunkInfoCount := 0
    warnings := []
    catchLogs := 0 }

def c10p : ParserState :=
  match c10run with
  | .ok (p, _) => p
  | .error _ => c10fallback

def c10md : MapObjectData :=
  match c10run with
  | .ok (_, md) => md
  | .error _ => mkMapObjectData [] [] 0 []

theorem claim_C10_witness :
    c10md.objectCount = c10p.declaredObjectCount ∧
    c10md.objectCount ≠ c10p.currentObjectCount ∧
    c10md.chunkObjects.getD 1 none = none :=
  have h := claim_C10 c10strings [] c10common 4 c10p c10md
    (by with_unfolding_all rfl)
    (of_decide_eq_true (by with_unfolding_all rfl))
    (of_decide_eq_true (by with_unfolding_all rfl))
  ⟨h.1, h.2.1, h.2.2 1 (of_decide_eq_true (by with_unfolding_all rfl))⟩
